import Mathlib

/-!
Verification of the flk link-registry tool (github.com/jy-eggroll/flk).

This development shallowly embeds the core logic of the repository:

* `internal/pathutil/pathutil.go` — string-level path helpers
  (`ExpandHome`, `NormalizePath`), together with models of the Go
  standard-library string functions they rely on
  (`path/filepath.Clean`, `Join`, `Dir`, `IsAbs` in their Unix form).
* `internal/store` (the `Manager` version) — the four-level registry,
  `AddRecord`, `Save`, `LoadFromFile`, `foldPath`.
* `cmd/check.go` — `performCheck`, `checkSymlinkValid`,
  `checkHardlinkValid` (the variant that returns error-kind tags).
* `internal/create/symlink.Create` and `internal/create/hardlink.Create`
  over an explicit filesystem model.
* `cmd` fix — the interactive repair loop `RunFix`.

Filesystem and OS calls (`os.Stat`, `os.Lstat`, `os.Readlink`,
`os.Remove`, `os.Symlink`, `os.Link`, `encoding/json`) are external
collaborators of the repository; they are modelled explicitly below at
the granularity the checked properties need.

All string manipulation is defined over the character list `String.data`
(rather than through the built-in byte-indexed `String` functions) so
that every definition reduces inside the kernel.
-/

namespace Flk

/-! ### Character-list string primitives

Models of the Go `strings` functions used by the repository, written
over `String.data` so they evaluate by `decide`/`rfl`. -/

/-- Go `strings.HasPrefix`. -/
def strStartsWith (s pre : String) : Bool := pre.data.isPrefixOf s.data

/-- Drop the first `n` characters (the repository only slices off ASCII
prefixes, where Go's byte indexing and character indexing agree). -/
def strDrop (s : String) (n : Nat) : String := ⟨s.data.drop n⟩

/-- Character count of a string (for the repository's ASCII prefixes
this agrees with Go's byte length). -/
def strLen (s : String) : Nat := s.data.length

/-- Split a character list at every occurrence of `c`. -/
def splitCharList (c : Char) : List Char → List (List Char)
  | [] => [[]]
  | x :: xs =>
    match splitCharList c xs with
    | [] => [[]]
    | g :: gs => if x = c then [] :: g :: gs else (x :: g) :: gs

/-- Go `strings.Split(s, sep)` for a one-character separator. -/
def strSplitChar (c : Char) (s : String) : List String :=
  (splitCharList c s.data).map (fun l => ⟨l⟩)

/-- Concatenate with `/` separators (Go `strings.Join(elems, "/")`). -/
def joinSlash : List String → String
  | [] => ""
  | [x] => x
  | x :: y :: xs => x ++ "/" ++ joinSlash (y :: xs)

/-! ### Go `path/filepath` string functions (Unix flavour)

These are Go standard-library functions (external to the repository);
the definitions model their documented Unix behaviour: `Clean` removes
`.` and empty elements, resolves `..` lexically, and returns `.` for an
empty result. -/

/-- One pass of the `Clean` element loop.  `acc` holds the already
processed elements in reverse order. -/
def cleanRev (rooted : Bool) : List String → List String → List String
  | acc, [] => acc
  | acc, p :: ps =>
    if p = "" ∨ p = "." then cleanRev rooted acc ps
    else if p = ".." then
      match acc with
      | [] => cleanRev rooted (if rooted then [] else [".."]) ps
      | a :: rest =>
        if a = ".." then cleanRev rooted (".." :: a :: rest) ps
        else cleanRev rooted rest ps
    else cleanRev rooted (p :: acc) ps

/-- Model of Go `filepath.Clean` for Unix paths. -/
def goClean (s : String) : String :=
  if s = "" then "."
  else
    let rooted := strStartsWith s "/"
    let elems := (cleanRev rooted [] (strSplitChar '/' s)).reverse
    if rooted then "/" ++ joinSlash elems
    else if elems = [] then "." else joinSlash elems

/-- Model of Go `filepath.IsAbs` for Unix paths. -/
def goIsAbs (s : String) : Bool := strStartsWith s "/"

/-- Model of Go `filepath.Join(a, b)`: the non-empty arguments joined
with the separator, then cleaned; empty if both are empty. -/
def goJoin2 (a b : String) : String :=
  if a = "" ∧ b = "" then ""
  else if a = "" then goClean b
  else if b = "" then goClean a
  else goClean (a ++ "/" ++ b)

/-- Model of Go `filepath.Dir`: everything up to (and including) the
final separator, cleaned; `.` when there is no separator. -/
def goDir (s : String) : String :=
  match strSplitChar '/' s with
  | [] => "."
  | [_] => goClean ""
  | parts => goClean (joinSlash parts.dropLast ++ "/")

/-! ### `internal/pathutil` (pathutil.go)

`os.UserHomeDir` is modelled by an `Option String` argument: `some h`
when the home directory resolves to `h`, `none` when it fails. -/

/-- Embedding of `pathutil.ExpandHome` (pathutil.go lines 77-101).

Note the final branch: for an input that starts with `~` but is neither
exactly `~` nor of the form `~/...` or `~\...`, the Go function reaches
`return "", err` where `err` is the (nil) error of the successful
`os.UserHomeDir` call, so it returns the empty string with no error. -/
def expandHome (home : Option String) (path : String) : Except Unit String :=
  if ¬ strStartsWith path "~" then .ok path
  else
    match home with
    | none => .error ()
    | some h =>
      if path = "~" then .ok h
      else if strStartsWith path "~/" ∨ strStartsWith path "~\\" then
        .ok (goJoin2 h (strDrop path 2))
      else .ok ""

/-- Embedding of `pathutil.NormalizePath` (pathutil.go lines 103-112):
tilde-expansion followed by `filepath.Clean`. -/
def normalizePath (home : Option String) (path : String) : Except Unit String :=
  match expandHome home path with
  | .error e => .error e
  | .ok expanded => .ok (goClean expanded)

end Flk

/-! ## Claim C10 -/

/-- C10: for every input string that begins with `~` but is neither
exactly `~` nor starts with `~/` or `~\` (for example `~user`),
`ExpandHome` returns the empty string together with a nil error
(provided the home directory itself resolves), and `NormalizePath`
consequently returns the cleaned empty path `.` with a nil error,
silently discarding the original path instead of reporting a failure. -/
theorem expandHome_discards_tilde_user_paths (home path : String)
    (h1 : Flk.strStartsWith path "~" = true) (h2 : path ≠ "~")
    (h3 : Flk.strStartsWith path "~/" = false)
    (h4 : Flk.strStartsWith path "~\\" = false) :
    Flk.expandHome (some home) path = .ok "" ∧
      Flk.normalizePath (some home) path = .ok "." := by
  have he : Flk.expandHome (some home) path = .ok "" := by
    simp [Flk.expandHome, h1, h2, h3, h4]
  refine ⟨he, ?_⟩
  simp [Flk.normalizePath, he]
  rfl

/-- Witness for C10 at the concrete input `~user` with home `/home/u`. -/
theorem expandHome_discards_tilde_user_paths_witness :
    Flk.expandHome (some "/home/u") "~user" = .ok "" ∧
      Flk.normalizePath (some "/home/u") "~user" = .ok "." :=
  expandHome_discards_tilde_user_paths "/home/u" "~user"
    (by decide) (by decide) (by decide) (by decide)

namespace Flk

/-! ### `internal/store` — the registry (`Manager` version, store part_007)

Go's nested `map[string]...` levels are modelled as association lists
(`List (String × _)`); `aupsert` captures a Go map write `m[k] = v`
(replace the binding if the key is present, otherwise add it), and
`alookup` a Go map read. -/

/-- A `store.Entry` (`map[string]string`). -/
abbrev Entry := List (String × String)

/-- `store.PathGroup`. -/
abbrev PathGroup := List (String × List Entry)

/-- `store.TypeGroup`. -/
abbrev TypeGroup := List (String × PathGroup)

/-- `store.DeviceGroup`. -/
abbrev DeviceGroup := List (String × TypeGroup)

/-- `store.RootConfig`. -/
abbrev RootConfig := List (String × DeviceGroup)

/-- Go map read `m[k]` (first binding of the key). -/
def alookup {α : Type} (k : String) : List (String × α) → Option α
  | [] => none
  | (k2, v) :: rest => if k2 = k then some v else alookup k rest

/-- Go map write `m[k] = f m[k]`: replace the binding if present,
otherwise append a new one. -/
def aupsert {α : Type} (k : String) (f : Option α → α) :
    List (String × α) → List (String × α)
  | [] => [(k, f none)]
  | (k2, v) :: rest =>
    if k2 = k then (k2, f (some v)) :: rest else (k2, v) :: aupsert k f rest

/-- Embedding of `store.foldPath` (part_007 lines 27-34): when the
user's home directory is a string prefix of `path`, replace that first
occurrence by `~` (`strings.Replace(path, home, "~", 1)` after
`strings.HasPrefix(path, home)`); otherwise return `path` unchanged. -/
def foldPath (home path : String) : String :=
  if strStartsWith path home then "~" ++ strDrop path (strLen home) else path

/-- The device-defaulting step of `AddRecord`: an empty device is
recorded under `"all"`. -/
def effectiveDevice (device : String) : String :=
  if device = "" then "all" else device

/-- The field-folding step of `AddRecord`: every field value goes
through `foldPath`. -/
def processedFields (home : String) (fields : Entry) : Entry :=
  fields.map (fun kv => (kv.1, foldPath home kv.2))

/-- Embedding of `Manager.AddRecord` (part_007 lines 36-69).  `goos` is
`runtime.GOOS`; `home` is the current user's home directory used by
`foldPath`.  Missing intermediate map levels are created lazily
(modelled by `Option.getD []`), the fields are folded, and the processed
entry is appended to the list at
`[goos][device][linkType][foldedParent]`. -/
def addRecord (home goos : String) (m : RootConfig)
    (device linkType parentPath : String) (fields : Entry) : RootConfig :=
  let device := effectiveDevice device
  let foldedParent := foldPath home parentPath
  let processedEntry := processedFields home fields
  aupsert goos (fun dg =>
    aupsert device (fun tg =>
      aupsert linkType (fun pg =>
        aupsert foldedParent (fun es => es.getD [] ++ [processedEntry])
          (pg.getD []))
        (tg.getD []))
      (dg.getD [])) m

/-- The entry list stored at a (platform, device, linkType, originDir)
coordinate of a registry. -/
def entriesAt (m : RootConfig) (p d t o : String) : Option (List Entry) :=
  (((alookup p m).bind (alookup d)).bind (alookup t)).bind (alookup o)

theorem bind_alookup {α : Type} (k : String) (o : Option (List (String × α))) :
    o.bind (alookup k) = alookup k (o.getD []) := by
  cases o <;> rfl

theorem alookup_aupsert_self {α : Type} (k : String) (f : Option α → α)
    (l : List (String × α)) :
    alookup k (aupsert k f l) = some (f (alookup k l)) := by
  induction l with
  | nil => simp [alookup, aupsert]
  | cons kv rest ih =>
    obtain ⟨k2, v⟩ := kv
    by_cases h : k2 = k
    · simp [alookup, aupsert, h]
    · simp [alookup, aupsert, h, ih]

theorem alookup_aupsert_ne {α : Type} (k k2 : String) (f : Option α → α)
    (l : List (String × α)) (h : k2 ≠ k) :
    alookup k2 (aupsert k f l) = alookup k2 l := by
  induction l with
  | nil => simp [alookup, aupsert, Ne.symm h]
  | cons kv rest ih =>
    obtain ⟨k3, v⟩ := kv
    by_cases h2 : k3 = k
    · subst h2
      simp [alookup, aupsert, Ne.symm h]
    · by_cases h3 : k3 = k2 <;> simp [alookup, aupsert, h2, h3, ih, h]

end Flk


/-! ## Claim C5 -/

/-- A small concrete registry used by witnesses. -/
def sampleRegistry : Flk.RootConfig :=
  [("linux", [("dev", [("symlink", [("/src", [[("real", "/x"), ("fake", "/y")]])])])])]

/-- C5: every `AddRecord` call only appends: the entry list at the
coordinate `[platform][device][linkType][foldedOriginDir]` afterwards
equals the previous list with exactly one new `LinkEntry` appended at
the end (the processed fields), and the list at every other coordinate
is unchanged — so entries within one origin-directory list remain in
creation order, no existing entry is overwritten or removed, and no
automatic de-duplication occurs.  (`AddRecord` records an empty device
parameter under `"all"` and home-folds the origin directory, so the
touched coordinate uses `effectiveDevice` and `foldPath`.) -/
theorem addRecord_only_appends (home goos : String) (m : Flk.RootConfig)
    (device linkType parentPath : String) (fields : Flk.Entry) :
    Flk.entriesAt (Flk.addRecord home goos m device linkType parentPath fields)
        goos (Flk.effectiveDevice device) linkType (Flk.foldPath home parentPath)
      = some ((Flk.entriesAt m goos (Flk.effectiveDevice device) linkType
            (Flk.foldPath home parentPath)).getD []
          ++ [Flk.processedFields home fields]) ∧
    ∀ p d t o,
      (p ≠ goos ∨ d ≠ Flk.effectiveDevice device ∨ t ≠ linkType ∨
        o ≠ Flk.foldPath home parentPath) →
      Flk.entriesAt (Flk.addRecord home goos m device linkType parentPath fields) p d t o
        = Flk.entriesAt m p d t o := by
  refine ⟨?_, ?_⟩
  · simp [Flk.entriesAt, Flk.bind_alookup, Flk.addRecord, Flk.alookup_aupsert_self]
  · intro p d t o h
    by_cases hp : p = goos
    case neg =>
      simp [Flk.entriesAt, Flk.bind_alookup, Flk.addRecord,
        Flk.alookup_aupsert_ne _ _ _ _ hp]
    case pos =>
      subst hp
      by_cases hd : d = Flk.effectiveDevice device
      case neg =>
        simp [Flk.entriesAt, Flk.bind_alookup, Flk.addRecord,
          Flk.alookup_aupsert_self, Flk.alookup_aupsert_ne _ _ _ _ hd]
      case pos =>
        subst hd
        by_cases ht : t = linkType
        case neg =>
          simp [Flk.entriesAt, Flk.bind_alookup, Flk.addRecord,
            Flk.alookup_aupsert_self, Flk.alookup_aupsert_ne _ _ _ _ ht]
        case pos =>
          subst ht
          have ho : o ≠ Flk.foldPath home parentPath := by
            rcases h with h | h | h | h <;> first | exact h | (exfalso; exact h rfl)
          simp [Flk.entriesAt, Flk.bind_alookup, Flk.addRecord,
            Flk.alookup_aupsert_self, Flk.alookup_aupsert_ne _ _ _ _ ho]

/-- Witness for C5: a concrete `AddRecord` call appends one entry at its
own coordinate and leaves a different device's coordinate unchanged. -/
theorem addRecord_only_appends_witness :
    Flk.entriesAt (Flk.addRecord "/home/u" "linux" sampleRegistry
        "dev" "symlink" "/src" [("real", "/a"), ("fake", "/b")])
        "linux" "dev" "symlink" "/src"
      = some ((Flk.entriesAt sampleRegistry "linux" "dev" "symlink" "/src").getD []
          ++ [Flk.processedFields "/home/u" [("real", "/a"), ("fake", "/b")]]) ∧
    Flk.entriesAt (Flk.addRecord "/home/u" "linux" sampleRegistry
        "dev" "symlink" "/src" [("real", "/a"), ("fake", "/b")])
        "linux" "other" "symlink" "/src"
      = Flk.entriesAt sampleRegistry "linux" "other" "symlink" "/src" := by
  have h := addRecord_only_appends "/home/u" "linux" sampleRegistry
    "dev" "symlink" "/src" [("real", "/a"), ("fake", "/b")]
  refine ⟨?_, ?_⟩
  · have h1 := h.1
    simpa [Flk.effectiveDevice, Flk.foldPath] using h1
  · exact h.2 "linux" "other" "symlink" "/src" (Or.inr (Or.inl (by decide)))

/-! ## Claim C8 -/

/-- C8 counterexample: `AddRecord` with home `/home/user` stores the
field value `/home/userXfile` — which merely shares the home directory
as a string prefix, with no separator boundary — as `~Xfile`, not
unchanged as the claim states. -/
theorem addRecord_folds_nonboundary_prefix_counterexample :
    Flk.entriesAt (Flk.addRecord "/home/user" "linux" [] "dev" "symlink" "/o"
        [("real", "/home/userXfile")]) "linux" "dev" "symlink" "/o"
      = some [[("real", "~Xfile")]] ∧
    ("~Xfile" : String) ≠ "/home/userXfile" := by
  exact ⟨by decide, by decide⟩

/-- C8 amended: when `AddRecord` stores a path-valued field or the
origin directory, the home-directory prefix is folded to `~` exactly
when the home directory is a plain string prefix of the value — with no
separator-boundary requirement, so a value like `/home/userXfile` (home
`/home/user`) is stored as `~Xfile` rather than unchanged.  A value of
which home is not a string prefix is stored unchanged. -/
theorem addRecord_folds_without_boundary (home v : String) :
    (Flk.strStartsWith v home = true →
      Flk.foldPath home v = "~" ++ Flk.strDrop v (Flk.strLen home)) ∧
    (Flk.strStartsWith v home = false → Flk.foldPath home v = v) ∧
    ∀ goos m device lt pp k,
      Flk.entriesAt (Flk.addRecord home goos m device lt pp [(k, v)])
          goos (Flk.effectiveDevice device) lt (Flk.foldPath home pp)
        = some ((Flk.entriesAt m goos (Flk.effectiveDevice device) lt
              (Flk.foldPath home pp)).getD []
            ++ [[(k, Flk.foldPath home v)]]) := by
  refine ⟨fun h => ?_, fun h => ?_, fun goos m device lt pp k => ?_⟩
  · simp [Flk.foldPath, h]
  · simp [Flk.foldPath, h]
  · simp [Flk.entriesAt, Flk.bind_alookup, Flk.addRecord,
      Flk.alookup_aupsert_self, Flk.processedFields]

/-- Witness for the C8 amended theorem: a prefix without a separator
boundary is folded; a non-prefix value is kept unchanged. -/
theorem addRecord_folds_without_boundary_witness :
    Flk.foldPath "/home/u" "/home/uXy" = "~Xy" ∧
    Flk.foldPath "/home/u" "/opt/z" = "/opt/z" := by
  refine ⟨?_, ?_⟩
  · exact ((addRecord_folds_without_boundary "/home/u" "/home/uXy").1
      (by decide)).trans (by decide)
  · exact (addRecord_folds_without_boundary "/home/u" "/opt/z").2.1 (by decide)

namespace Flk

/-! ### The Validator — `cmd` check (part_012)

`os.Lstat` / `os.Stat` / `os.Readlink` are external OS calls; they are
modelled by an oracle structure `SysOS`.  A stat result is either a
`FileInfo` (carrying the one mode bit and the file identity that the
checker consults) or one of the two error classes the checker
distinguishes (`os.IsNotExist` versus any other error).  The
human-readable message component of each Go return is elided; the
stable error-kind tag (third return value) is kept verbatim. -/

/-- The part of `os.FileInfo` the checker consults: the
`os.ModeSymlink` mode bit and the file identity (device+inode)
compared by `os.SameFile`. -/
structure FileInfo where
  isSymlink : Bool
  id : Nat
deriving DecidableEq

/-- The two error classes distinguished after a failed stat:
`os.IsNotExist(err)` or any other error. -/
inductive StatErr where
  | notExist
  | accessFail
deriving DecidableEq

/-- Oracle for the OS calls of the checker. -/
structure SysOS where
  lstat : String → Except StatErr FileInfo
  stat : String → Except StatErr FileInfo
  readlink : String → Except StatErr String

/-- `os.SameFile`: same underlying file identity. -/
def sameFile (a b : FileInfo) : Bool := a.id == b.id

/-- Embedding of `checkSymlinkValid` (part_012 lines 141-202), keeping
the `(valid, errorType)` components of the Go `(bool, string, string)`
return. -/
def checkSymlinkValid (sys : SysOS) (home : Option String)
    (real fake basePath : String) : Bool × String :=
  match normalizePath home fake with
  | .error _ => (false, "PATH_EXPAND_FAIL")
  | .ok expandedFake =>
  match sys.lstat expandedFake with
  | .error .notExist => (false, "LINK_MISSING")
  | .error .accessFail => (false, "LINK_ACCESS_FAIL")
  | .ok fakeInfo =>
  if ¬ fakeInfo.isSymlink then (false, "NOT_SYMLINK")
  else
    match sys.readlink expandedFake with
    | .error _ => (false, "READLINK_FAIL")
    | .ok target =>
      let targetAbs := if goIsAbs target then target
        else goJoin2 (goDir expandedFake) target
      let expectedAbs0 := if goIsAbs real then real else goJoin2 basePath real
      let expectedAbs := match normalizePath home expectedAbs0 with
        | .ok expanded => expanded
        | .error _ => expectedAbs0
      match sys.stat targetAbs with
      | .error .notExist => (false, "TARGET_MISSING")
      | .error .accessFail => (false, "TARGET_ACCESS_FAIL")
      | .ok targetInfo =>
      match sys.stat expectedAbs with
      | .error .notExist => (false, "EXPECTED_MISSING")
      | .error .accessFail => (false, "EXPECTED_ACCESS_FAIL")
      | .ok expectedInfo =>
      if ¬ sameFile targetInfo expectedInfo then (false, "TARGET_MISMATCH")
      else (true, "")

/-- Embedding of `checkHardlinkValid` (part_012 lines 204-235). -/
def checkHardlinkValid (sys : SysOS) (prim seco basePath : String) :
    Bool × String :=
  let expandedPrim := if goIsAbs prim then prim else goJoin2 basePath prim
  let expandedSeco := seco
  match sys.stat expandedPrim with
  | .error .notExist => (false, "PRIM_MISSING")
  | .error .accessFail => (false, "PRIM_ACCESS_FAIL")
  | .ok primInfo =>
  match sys.stat expandedSeco with
  | .error .notExist => (false, "SECO_MISSING")
  | .error .accessFail => (false, "SECO_ACCESS_FAIL")
  | .ok secoInfo =>
  if ¬ sameFile primInfo secoInfo then (false, "NOT_SAME_FILE")
  else (true, "")

/-! Specification-side definitions for claim C1, written from the
claim's wording: the fixed check order, the error-kind of each step,
and the resolution bases for relative paths. -/

/-- Resolve a possibly-relative path against a base directory (the
claim's "if relative, resolve it relative to ..."). -/
def resolveAgainst (base p : String) : String :=
  if goIsAbs p then p else goJoin2 base p

/-- The re-normalization kept on success, value kept as-is on failure. -/
def renormalize (home : Option String) (p : String) : String :=
  match normalizePath home p with
  | .ok expanded => expanded
  | .error _ => p

/-- The check sequence of claim C1, stated as written in the spec:
normalize `fake` (`PATH_EXPAND_FAIL`), non-following stat of `fake`
(`LINK_MISSING`/`LINK_ACCESS_FAIL`), symlink-ness (`NOT_SYMLINK`),
readlink (`READLINK_FAIL`), resolve the stored target relative to the
directory containing `fake`, resolve the expected target relative to
the origin directory and re-normalize, stat the resolved link target
(`TARGET_MISSING`/`TARGET_ACCESS_FAIL`), stat the resolved expected
target (`EXPECTED_MISSING`/`EXPECTED_ACCESS_FAIL`), compare same-file
identity (`TARGET_MISMATCH`), else valid with no error. -/
def checkSymlinkValidSpec (sys : SysOS) (home : Option String)
    (real fake basePath : String) : Bool × String :=
  match normalizePath home fake with
  | .error _ => (false, "PATH_EXPAND_FAIL")
  | .ok expandedFake =>
    match sys.lstat expandedFake with
    | .error .notExist => (false, "LINK_MISSING")
    | .error .accessFail => (false, "LINK_ACCESS_FAIL")
    | .ok fakeInfo =>
      if fakeInfo.isSymlink then
        match sys.readlink expandedFake with
        | .error _ => (false, "READLINK_FAIL")
        | .ok target =>
          let linkTargetResolved := resolveAgainst (goDir expandedFake) target
          let expectedResolved := renormalize home (resolveAgainst basePath real)
          match sys.stat linkTargetResolved with
          | .error .notExist => (false, "TARGET_MISSING")
          | .error .accessFail => (false, "TARGET_ACCESS_FAIL")
          | .ok targetInfo =>
            match sys.stat expectedResolved with
            | .error .notExist => (false, "EXPECTED_MISSING")
            | .error .accessFail => (false, "EXPECTED_ACCESS_FAIL")
            | .ok expectedInfo =>
              if sameFile targetInfo expectedInfo then (true, "")
              else (false, "TARGET_MISMATCH")
      else (false, "NOT_SYMLINK")

end Flk

/-! ## Claim C1 -/

/-- C1: for every symlink entry `{real, fake}`, the Validator performs
the checks in the fixed order and stops at the first failure, returning
the matching error-kind (`PATH_EXPAND_FAIL`, `LINK_MISSING`,
`LINK_ACCESS_FAIL`, `NOT_SYMLINK`, `READLINK_FAIL`, `TARGET_MISSING`,
`TARGET_ACCESS_FAIL`, `EXPECTED_MISSING`, `EXPECTED_ACCESS_FAIL`,
`TARGET_MISMATCH`), and is valid with no error when every step passes;
a relative stored link target is resolved relative to the directory
containing `fake`, while a relative `real` is resolved relative to the
origin directory base and re-normalized.  Stated as: the embedded
`checkSymlinkValid` coincides with the specification-side cascade
`checkSymlinkValidSpec` on every oracle and every input. -/
theorem checkSymlinkValid_matches_spec (sys : Flk.SysOS) (home : Option String)
    (real fake basePath : String) :
    Flk.checkSymlinkValid sys home real fake basePath
      = Flk.checkSymlinkValidSpec sys home real fake basePath := by
  unfold Flk.checkSymlinkValid Flk.checkSymlinkValidSpec Flk.resolveAgainst
    Flk.renormalize
  cases hn : Flk.normalizePath home fake with
  | error e => rfl
  | ok expandedFake =>
    dsimp only
    cases hl : sys.lstat expandedFake with
    | error e => cases e <;> rfl
    | ok fakeInfo =>
      dsimp only
      cases hs : fakeInfo.isSymlink
      · rw [if_pos (by decide : ¬(false = true)),
          if_neg (by decide : ¬(false = true))]
      · rw [if_neg (by decide : ¬¬(true = true)),
          if_pos (by decide : (true = true))]
        cases hr : sys.readlink expandedFake with
        | error e => rfl
        | ok target =>
          dsimp only
          cases ht : sys.stat (if Flk.goIsAbs target = true then target
              else Flk.goJoin2 (Flk.goDir expandedFake) target) with
          | error e => cases e <;> rfl
          | ok targetInfo =>
            dsimp only
            cases he : sys.stat (match Flk.normalizePath home
                (if Flk.goIsAbs real = true then real
                 else Flk.goJoin2 basePath real) with
              | .ok expanded => expanded
              | .error _ =>
                (if Flk.goIsAbs real = true then real
                 else Flk.goJoin2 basePath real)) with
            | error e => cases e <;> rfl
            | ok expectedInfo =>
              cases hsf : Flk.sameFile targetInfo expectedInfo <;> simp [hsf]

namespace Flk

/-! ### `performCheck` (part_012 lines 75-139)

`runtime.GOOS` is the `goos` argument; Go map iteration is modelled by
iterating the association lists.  The claims about `performCheck`
concern which entries appear in the result, so the (nondeterministic)
Go map iteration order is irrelevant. -/

/-- `cmd.CheckOptions`. -/
structure CheckOptions where
  deviceFilter : String
  checkSymlink : Bool
  checkHardlink : Bool
  checkDir : String
deriving DecidableEq

/-- `output.CheckResult`, keeping the fields `performCheck` fills in
(the human-readable `Error` message is elided alongside the checker's
message component; `BasePath` is never set by `performCheck`). -/
structure CheckResult where
  type : String
  device : String
  path : String
  real : String := ""
  fake : String := ""
  prim : String := ""
  seco : String := ""
  valid : Bool := false
  errorType : String := ""
deriving DecidableEq

/-- Go `strings.Contains`. -/
def goContains (s sub : String) : Bool :=
  (List.range (s.data.length + 1)).any fun i => sub.data.isPrefixOf (s.data.drop i)

/-- The per-path base computation of `performCheck`: the normalized
origin directory, falling back to the stored string if normalization
fails. -/
def originBase (home : Option String) (path : String) : String :=
  match normalizePath home path with
  | .ok basePath => basePath
  | .error _ => path

/-- The flag defaulting at the top of `performCheck`: if neither
`--symlink` nor `--hardlink` was given, check both. -/
def normalizeOptions (o : CheckOptions) : CheckOptions :=
  if ¬ o.checkSymlink ∧ ¬ o.checkHardlink then
    { o with checkSymlink := true, checkHardlink := true }
  else o

/-- The loop body of `performCheck` for one entry (a Go map read of a
missing field yields the zero value `""`; a link type that is neither
`"symlink"` nor `"hardlink"` leaves the zero values `valid = false`,
no error). -/
def mkCheckResult (sys : SysOS) (home : Option String)
    (linkType device path basePath : String) (entry : Entry) : CheckResult :=
  if linkType = "symlink" then
    let real := (alookup "real" entry).getD ""
    let fake := (alookup "fake" entry).getD ""
    let r := checkSymlinkValid sys home real fake basePath
    { type := linkType, device := device, path := path, real := real,
      fake := fake, valid := r.1, errorType := r.2 }
  else if linkType = "hardlink" then
    let prim := (alookup "prim" entry).getD ""
    let seco := (alookup "seco" entry).getD ""
    let r := checkHardlinkValid sys prim seco basePath
    { type := linkType, device := device, path := path, prim := prim,
      seco := seco, valid := r.1, errorType := r.2 }
  else
    { type := linkType, device := device, path := path }

/-- Embedding of `performCheck` (part_012 lines 75-139). -/
def performCheck (sys : SysOS) (home : Option String) (goos : String)
    (options0 : CheckOptions) (data : RootConfig) : List CheckResult :=
  match alookup goos data with
  | none => []
  | some platformData =>
    let options := normalizeOptions options0
    platformData.flatMap fun dd =>
      if options.deviceFilter ≠ "" ∧ dd.1 ≠ options.deviceFilter then []
      else
        dd.2.flatMap fun td =>
          if (td.1 = "symlink" ∧ options.checkSymlink = false) ∨
              (td.1 = "hardlink" ∧ options.checkHardlink = false) then []
          else
            td.2.flatMap fun pe =>
              if options.checkDir ≠ "" ∧ goContains pe.1 options.checkDir = false
              then []
              else
                pe.2.map (mkCheckResult sys home td.1 dd.1 pe.1
                  (originBase home pe.1))

theorem normalizeOptions_deviceFilter (o : CheckOptions) :
    (normalizeOptions o).deviceFilter = o.deviceFilter := by
  unfold normalizeOptions; split <;> rfl

theorem normalizeOptions_checkDir (o : CheckOptions) :
    (normalizeOptions o).checkDir = o.checkDir := by
  unfold normalizeOptions; split <;> rfl

theorem mkCheckResult_device (sys : SysOS) (home : Option String)
    (linkType device path basePath : String) (entry : Entry) :
    (mkCheckResult sys home linkType device path basePath entry).device
      = device := by
  unfold mkCheckResult
  by_cases h1 : linkType = "symlink" <;> by_cases h2 : linkType = "hardlink" <;>
    simp [h1, h2]

end Flk

/-! ## Claim C2 -/

/-- A registry with one `laptop` entry and one `all` entry under the
same platform, used by the C2 theorems. -/
def c2Registry : Flk.RootConfig :=
  [("linux",
    [("laptop", [("symlink", [("/o", [[("real", "/r"), ("fake", "/f")]])])]),
     ("all", [("symlink", [("/o", [[("real", "/r2"), ("fake", "/f2")]])])])])]

/-- An OS oracle on which every stat fails with non-existence. -/
def allMissingSys : Flk.SysOS :=
  { lstat := fun _ => .error .notExist
    stat := fun _ => .error .notExist
    readlink := fun _ => .error .notExist }

/-- C2 counterexample: on a registry holding a `laptop` entry and an
`all` entry, a check filtered by device `laptop` returns only the
`laptop` entry — the universal `all` entry is *not* returned, contrary
to the claim that exactly the two entries come back. -/
theorem performCheck_device_filter_excludes_all_counterexample :
    (Flk.performCheck allMissingSys (some "/home/u") "linux"
        ⟨"laptop", false, false, ""⟩ c2Registry).map (fun r => r.device)
      = ["laptop"] ∧
    Flk.entriesAt c2Registry "linux" "all" "symlink" "/o"
      = some [[("real", "/r2"), ("fake", "/f2")]] := by
  exact ⟨by decide, by decide⟩

/-- C2 amended: with a non-empty device filter, `performCheck` returns
exactly the entries whose device tag equals the filter string: every
returned result carries the filter as its device (so an entry tagged
`"all"` — or any other tag — is never returned for filter `"laptop"`),
and every entry recorded under the filter device that passes the
link-type and directory filters is returned. -/
theorem performCheck_device_filter_is_exact_match
    (sys : Flk.SysOS) (home : Option String) (goos : String)
    (options : Flk.CheckOptions) (data : Flk.RootConfig)
    (hf : options.deviceFilter ≠ "") :
    (∀ r ∈ Flk.performCheck sys home goos options data,
        r.device = options.deviceFilter) ∧
    (∀ platformData dd lt tg path entries entry,
        Flk.alookup goos data = some platformData →
        (options.deviceFilter, dd) ∈ platformData →
        (lt, tg) ∈ dd →
        (path, entries) ∈ tg →
        entry ∈ entries →
        ¬((lt = "symlink" ∧ (Flk.normalizeOptions options).checkSymlink = false) ∨
          (lt = "hardlink" ∧ (Flk.normalizeOptions options).checkHardlink = false)) →
        ¬(options.checkDir ≠ "" ∧ Flk.goContains path options.checkDir = false) →
        Flk.mkCheckResult sys home lt options.deviceFilter path
            (Flk.originBase home path) entry
          ∈ Flk.performCheck sys home goos options data) := by
  constructor
  · intro r hr
    unfold Flk.performCheck at hr
    cases hg : Flk.alookup goos data with
    | none => rw [hg] at hr; cases hr
    | some platformData =>
      rw [hg] at hr
      dsimp only at hr
      rw [List.mem_flatMap] at hr
      obtain ⟨dd, hdd, hr⟩ := hr
      by_cases hc : (Flk.normalizeOptions options).deviceFilter ≠ "" ∧
          dd.1 ≠ (Flk.normalizeOptions options).deviceFilter
      · rw [if_pos hc] at hr; cases hr
      · rw [if_neg hc] at hr
        have hdev : dd.1 = options.deviceFilter := by
          rw [Flk.normalizeOptions_deviceFilter] at hc
          by_contra hne
          exact hc ⟨hf, hne⟩
        rw [List.mem_flatMap] at hr
        obtain ⟨td, htd, hr⟩ := hr
        by_cases hc2 : (td.1 = "symlink" ∧
            (Flk.normalizeOptions options).checkSymlink = false) ∨
            (td.1 = "hardlink" ∧ (Flk.normalizeOptions options).checkHardlink = false)
        · rw [if_pos hc2] at hr; cases hr
        · rw [if_neg hc2] at hr
          rw [List.mem_flatMap] at hr
          obtain ⟨pe, hpe, hr⟩ := hr
          by_cases hc3 : (Flk.normalizeOptions options).checkDir ≠ "" ∧
              Flk.goContains pe.1 ((Flk.normalizeOptions options).checkDir) = false
          · rw [if_pos hc3] at hr; cases hr
          · rw [if_neg hc3] at hr
            rw [List.mem_map] at hr
            obtain ⟨entry, he, rfl⟩ := hr
            rw [Flk.mkCheckResult_device, hdev]
  · intro platformData dd lt tg path entries entry hg hdd htd hpe he hty hdir
    unfold Flk.performCheck
    rw [hg]
    dsimp only
    rw [List.mem_flatMap]
    refine ⟨(options.deviceFilter, dd), hdd, ?_⟩
    rw [if_neg ?hcond]
    case hcond =>
      rw [Flk.normalizeOptions_deviceFilter]
      rintro ⟨-, hne⟩
      exact hne rfl
    rw [List.mem_flatMap]
    refine ⟨(lt, tg), htd, ?_⟩
    rw [if_neg hty]
    rw [List.mem_flatMap]
    refine ⟨(path, entries), hpe, ?_⟩
    rw [if_neg ?hdircond]
    case hdircond =>
      rw [Flk.normalizeOptions_checkDir]
      exact hdir
    exact List.mem_map.mpr ⟨entry, he, rfl⟩

/-- Witness for the C2 amended theorem on the concrete two-device
registry: the sound direction applied to the single returned result and
the complete direction producing the `laptop` entry's result. -/
theorem performCheck_device_filter_is_exact_match_witness :
    Flk.mkCheckResult allMissingSys (some "/home/u") "symlink" "laptop" "/o"
        (Flk.originBase (some "/home/u") "/o")
        [("real", "/r"), ("fake", "/f")]
      ∈ Flk.performCheck allMissingSys (some "/home/u") "linux"
          ⟨"laptop", false, false, ""⟩ c2Registry := by
  refine (performCheck_device_filter_is_exact_match allMissingSys
      (some "/home/u") "linux" ⟨"laptop", false, false, ""⟩ c2Registry
      (by decide)).2
    [("laptop", [("symlink", [("/o", [[("real", "/r"), ("fake", "/f")]])])]),
     ("all", [("symlink", [("/o", [[("real", "/r2"), ("fake", "/f2")]])])])]
    [("symlink", [("/o", [[("real", "/r"), ("fake", "/f")]])])]
    "symlink"
    [("/o", [[("real", "/r"), ("fake", "/f")]])]
    "/o"
    [[("real", "/r"), ("fake", "/f")]]
    [("real", "/r"), ("fake", "/f")]
    (by rfl) (List.Mem.head _) (List.Mem.head _) (List.Mem.head _)
    (List.Mem.head _) (by decide) (by decide)

namespace Flk

/-! ### Filesystem model for the create operations

`internal/create/symlink.Create` (part_005, the version using `Lstat`)
and `internal/create/hardlink.Create` (create.go) mutate the
filesystem.  Paths are modelled as lists of already-expanded, cleaned
components of an absolute path (the Go functions document that their
inputs must be in standard form, and `filepath.Abs` is the identity on
such paths).  A filesystem maps paths to nodes; `frozen` marks paths
whose removal fails (modelling an `os.Remove` error).  A symlink stores
its target either absolutely or as `ups` steps up followed by
components — the component form of the relative strings produced by
`filepath.Rel`. -/

/-- An absolute, cleaned path as a list of components. -/
abbrev CPath := List String

/-- A stored symlink target: absolute, or relative (`ups` leading `..`
components followed by normal components). -/
inductive CTarget where
  | abs (p : CPath)
  | rel (ups : Nat) (comps : List String)
deriving DecidableEq

/-- A filesystem node; `file`/`dir` carry the identity that
`os.SameFile` compares. -/
inductive Node where
  | file (id : Nat)
  | dir (id : Nat)
  | symlink (target : CTarget)
deriving DecidableEq

/-- The filesystem: node map plus the set of paths whose removal
fails. -/
structure Fs where
  node : CPath → Option Node
  frozen : CPath → Bool

/-- `filepath.Dir` on component paths. -/
def dirC (p : CPath) : CPath := p.dropLast

/-- Resolve a stored symlink target found at `linkPath`: a relative
target is interpreted against the directory containing the link
(kernel path-walk semantics, matching `Join(Dir(link), target)` with
`..` resolution). -/
def resolveTarget (linkPath : CPath) : CTarget → CPath
  | .abs p => p
  | .rel ups comps =>
    (dirC linkPath).take ((dirC linkPath).length - ups) ++ comps

/-- `os.Lstat`: look the path up without following links. -/
def lstatFs (fs : Fs) (p : CPath) : Except StatErr Node :=
  match fs.node p with
  | none => .error .notExist
  | some n => .ok n

/-- `os.Stat` with fuel for symlink chains (`ELOOP` is an access-class
error). -/
def statFsFuel (fs : Fs) : Nat → CPath → Except StatErr Node
  | 0, _ => .error .accessFail
  | fuel+1, p =>
    match fs.node p with
    | none => .error .notExist
    | some (.symlink t) => statFsFuel fs fuel (resolveTarget p t)
    | some n => .ok n

/-- `os.Stat`. -/
def statFs (fs : Fs) (p : CPath) : Except StatErr Node := statFsFuel fs 64 p

/-- `os.Remove`: fails when the path is missing or frozen
(permission / non-empty directory). -/
def removeFs (fs : Fs) (p : CPath) : Except Unit Fs :=
  match fs.node p with
  | none => .error ()
  | some _ =>
    if fs.frozen p then .error ()
    else .ok { fs with node := fun q => if q = p then none else fs.node q }

/-- `os.Symlink(target, linkPath)`: fails with `EEXIST` when `linkPath`
exists (without following it); otherwise records the symlink node. -/
def symlinkFs (fs : Fs) (target : CTarget) (p : CPath) : Except Unit Fs :=
  match fs.node p with
  | some _ => .error ()
  | none =>
    .ok { fs with
      node := fun q => if q = p then some (.symlink target) else fs.node q }

/-- `os.Link(oldname, newname)`: fails with `EEXIST` when `newname`
exists; otherwise the new name shares the old file's identity. -/
def linkFs (fs : Fs) (oldp newp : CPath) : Except Unit Fs :=
  match fs.node newp with
  | some _ => .error ()
  | none =>
    match statFs fs oldp with
    | .ok (.file i) =>
      .ok { fs with
        node := fun q => if q = newp then some (.file i) else fs.node q }
    | _ => .error ()

/-- The error classes of `pathutil.EnsureDirExists`.  The typed
`existsButNotDirectory` case models `pathutil.ExistsButNotDirectoryError`
(matched with `errors.Is` by both create functions; the type itself is
repository code outside the provided sources — modelled from the spec
sentence "If destPath's parent exists but is not a directory ..."). -/
inductive EnsureErr where
  | existsButNotDirectory
  | checkFailed
deriving DecidableEq

/-- `os.MkdirAll` on the parent: add directory nodes at every missing
prefix of `d`. -/
def mkdirAllNode (fs : Fs) (d : CPath) : Fs :=
  { fs with
    node := fun q =>
      if q <+: d ∧ fs.node q = none then some (.dir 0) else fs.node q }

/-- Embedding of `pathutil.EnsureDirExists` (pathutil.go lines 121-149)
over the filesystem model: stat the parent directory; fine if it is a
directory, typed error if it exists as a non-directory, create it
(recursively) if missing. -/
def ensureDirExists (fs : Fs) (p : CPath) : Except EnsureErr Fs :=
  match statFs fs (dirC p) with
  | .ok (.dir _) => .ok fs
  | .ok _ => .error .existsButNotDirectory
  | .error .notExist => .ok (mkdirAllNode fs (dirC p))
  | .error .accessFail => .error .checkFailed

/-- The distinct failure exits of the create functions. -/
inductive CreateErr where
  | sourceMissing
  | removeFailed
  | ensureDirFailed
  | linkFailed
deriving DecidableEq

/-- Result of a create call: the final filesystem and the error, if
any (`none` = success). -/
structure CreateOut where
  fs : Fs
  err : Option CreateErr

/-- Length of the common prefix of two component lists. -/
def commonPrefixLen : List String → List String → Nat
  | [], _ => 0
  | _ :: _, [] => 0
  | a :: as, b :: bs => if a = b then commonPrefixLen as bs + 1 else 0

/-- `filepath.Rel(base, target)` for two absolute cleaned component
paths: strip the common prefix; the result is `(ups, comps)` — `ups`
leading `..` elements followed by `comps`.  (`Rel` cannot error on two
absolute Unix paths; it returns `.` exactly when `base = target`,
i.e. `(0, [])`.) -/
def goRelC (base targ : CPath) : Nat × List String :=
  (base.length - commonPrefixLen base targ,
   targ.drop (commonPrefixLen base targ))

/-- The `force` block of `symlink.Create` (part_005 lines 30-55):
`os.Lstat` the destination (a non-following stat, so a broken symlink
counts as existing); if present, remove it — a removal failure aborts
with that error.  Then `EnsureDirExists`: on the typed
exists-but-not-directory error remove the conflicting parent file
(failure aborts); any other error is swallowed inside the force
block. -/
def symlinkForceStep (fs : Fs) (fake : CPath) : Except (CreateErr × Fs) Fs :=
  let afterRemove : Fs → Except (CreateErr × Fs) Fs := fun fs1 =>
    match ensureDirExists fs1 fake with
    | .ok fs2 => .ok fs2
    | .error .existsButNotDirectory =>
      match removeFs fs1 (dirC fake) with
      | .ok fs2 => .ok fs2
      | .error _ => .error (.removeFailed, fs1)
    | .error .checkFailed => .ok fs1
  match lstatFs fs fake with
  | .ok _ =>
    match removeFs fs fake with
    | .ok fs1 => afterRemove fs1
    | .error _ => .error (.removeFailed, fs)
  | .error _ => afterRemove fs

/-- The link-target computation of `symlink.Create` (part_005 lines
62-71): `filepath.Rel(Dir(fake), Abs(real))`, falling back to the
absolute path on error or when the result is `"."` (which for two
absolute cleaned paths happens exactly when `Rel` returns `(0, [])`). -/
def symlinkLinkTarget (real fake : CPath) : CTarget :=
  if (goRelC (dirC fake) real).1 = 0 ∧ (goRelC (dirC fake) real).2 = [] then
    CTarget.abs real
  else CTarget.rel (goRelC (dirC fake) real).1 (goRelC (dirC fake) real).2

/-- Embedding of `symlink.Create` (part_005 lines 21-77): require the
source to exist (following stat); run the force block if requested;
ensure the destination's parent directory; create the symlink at the
computed target. -/
def symlinkCreate (fs0 : Fs) (real fake : CPath) (force : Bool) : CreateOut :=
  match statFs fs0 real with
  | .error _ => ⟨fs0, some .sourceMissing⟩
  | .ok _ =>
    match (if force then symlinkForceStep fs0 fake else .ok fs0) with
    | .error (e, fsE) => ⟨fsE, some e⟩
    | .ok fs1 =>
      match ensureDirExists fs1 fake with
      | .error _ => ⟨fs1, some .ensureDirFailed⟩
      | .ok fs2 =>
        match symlinkFs fs2 (symlinkLinkTarget real fake) fake with
        | .error _ => ⟨fs2, some .linkFailed⟩
        | .ok fs3 => ⟨fs3, none⟩

/-- The `force` block of `hardlink.Create` (create.go lines 30-52).
Unlike `symlink.Create`, the destination's existence is decided by a
following `os.Stat`, and a removal failure is only logged — execution
continues without aborting. -/
def hardlinkForceStep (fs : Fs) (seco : CPath) : Except (CreateErr × Fs) Fs :=
  let afterRemove : Fs → Except (CreateErr × Fs) Fs := fun fs1 =>
    match ensureDirExists fs1 seco with
    | .ok fs2 => .ok fs2
    | .error .existsButNotDirectory =>
      match removeFs fs1 (dirC seco) with
      | .ok fs2 => .ok fs2
      | .error _ => .error (.removeFailed, fs1)
    | .error .checkFailed => .ok fs1
  match statFs fs seco with
  | .ok _ =>
    match removeFs fs seco with
    | .ok fs1 => afterRemove fs1
    | .error _ => afterRemove fs
  | .error _ => afterRemove fs

/-- Embedding of `hardlink.Create` (create.go lines 21-63). -/
def hardlinkCreate (fs0 : Fs) (prim seco : CPath) (force : Bool) : CreateOut :=
  match statFs fs0 prim with
  | .error _ => ⟨fs0, some .sourceMissing⟩
  | .ok _ =>
    match (if force then hardlinkForceStep fs0 seco else .ok fs0) with
    | .error (e, fsE) => ⟨fsE, some e⟩
    | .ok fs1 =>
      match ensureDirExists fs1 seco with
      | .error _ => ⟨fs1, some .ensureDirFailed⟩
      | .ok fs2 =>
        match linkFs fs2 prim seco with
        | .error _ => ⟨fs2, some .linkFailed⟩
        | .ok fs3 => ⟨fs3, none⟩

/-- `os.SameFile` on resolved nodes. -/
def sameFileNode : Node → Node → Bool
  | .file i, .file j => i == j
  | .dir i, .dir j => i == j
  | _, _ => false

/-- The checker cascade of `checkSymlinkValid` (part_012 lines 141-202)
instantiated over the filesystem model for the creation-validation
claims: component paths are already home-expanded and cleaned, so the
`NormalizePath` steps are the identity and the stored `real` of this
model is absolute; `os.Readlink` succeeds exactly on symlink nodes and
yields the stored target, which is resolved against the directory
containing the link. -/
def checkSymlinkValidFs (fs : Fs) (real fake : CPath) : Bool × String :=
  match lstatFs fs fake with
  | .error .notExist => (false, "LINK_MISSING")
  | .error .accessFail => (false, "LINK_ACCESS_FAIL")
  | .ok (.symlink target) =>
    let targetAbs := resolveTarget fake target
    let expectedAbs := real
    match statFs fs targetAbs with
    | .error .notExist => (false, "TARGET_MISSING")
    | .error .accessFail => (false, "TARGET_ACCESS_FAIL")
    | .ok targetInfo =>
      match statFs fs expectedAbs with
      | .error .notExist => (false, "EXPECTED_MISSING")
      | .error .accessFail => (false, "EXPECTED_ACCESS_FAIL")
      | .ok expectedInfo =>
        if sameFileNode targetInfo expectedInfo then (true, "")
        else (false, "TARGET_MISMATCH")
  | .ok _ => (false, "NOT_SYMLINK")

end Flk


namespace Flk

/-! ### Run lemmas for the create operations -/

theorem statFsFuel_succ (fs : Fs) (k : Nat) (p : CPath) :
    statFsFuel fs (k+1) p
      = match fs.node p with
        | none => .error .notExist
        | some (.symlink t) => statFsFuel fs k (resolveTarget p t)
        | some n => .ok n := rfl

theorem statFs_file (fs : Fs) (p : CPath) (i : Nat)
    (h : fs.node p = some (.file i)) : statFs fs p = .ok (.file i) := by
  show statFsFuel fs (63+1) p = _
  rw [statFsFuel_succ, h]

theorem statFs_dir (fs : Fs) (p : CPath) (i : Nat)
    (h : fs.node p = some (.dir i)) : statFs fs p = .ok (.dir i) := by
  show statFsFuel fs (63+1) p = _
  rw [statFsFuel_succ, h]

theorem statFs_broken_symlink (fs : Fs) (p : CPath) (t : CTarget)
    (h1 : fs.node p = some (.symlink t))
    (h2 : fs.node (resolveTarget p t) = none) :
    statFs fs p = .error .notExist := by
  show statFsFuel fs (63+1) p = _
  rw [statFsFuel_succ, h1]
  show statFsFuel fs (62+1) _ = _
  rw [statFsFuel_succ, h2]

theorem ensureDirExists_dir (fs : Fs) (p : CPath) (j : Nat)
    (h : fs.node (dirC p) = some (.dir j)) : ensureDirExists fs p = .ok fs := by
  unfold ensureDirExists
  rw [statFs_dir _ _ _ h]

theorem symlinkFs_exists (fs : Fs) (t : CTarget) (p : CPath) (n : Node)
    (h : fs.node p = some n) : symlinkFs fs t p = .error () := by
  unfold symlinkFs
  rw [h]

theorem linkFs_exists (fs : Fs) (oldp p : CPath) (n : Node)
    (h : fs.node p = some n) : linkFs fs oldp p = .error () := by
  unfold linkFs
  rw [h]

theorem commonPrefixLen_le_left (a : List String) :
    ∀ b, commonPrefixLen a b ≤ a.length := by
  induction a with
  | nil => intro b; simp [commonPrefixLen]
  | cons x xs ih =>
    intro b
    cases b with
    | nil => simp [commonPrefixLen]
    | cons y ys =>
      by_cases h : x = y
      · simp only [commonPrefixLen, if_pos h, List.length_cons]
        exact Nat.succ_le_succ (ih ys)
      · simp [commonPrefixLen, h]

theorem take_commonPrefixLen (a : List String) :
    ∀ b, a.take (commonPrefixLen a b) = b.take (commonPrefixLen a b) := by
  induction a with
  | nil => intro b; simp [commonPrefixLen]
  | cons x xs ih =>
    intro b
    cases b with
    | nil => simp [commonPrefixLen]
    | cons y ys =>
      by_cases h : x = y
      · simp only [commonPrefixLen, if_pos h, List.take_succ_cons]
        rw [ih ys, h]
      · simp [commonPrefixLen, h]

theorem goRelC_resolve (base t : CPath) :
    base.take (base.length - (goRelC base t).1) ++ (goRelC base t).2 = t := by
  unfold goRelC
  dsimp only
  rw [Nat.sub_sub_self (commonPrefixLen_le_left base t),
    take_commonPrefixLen]
  exact List.take_append_drop _ t

theorem dirC_ne_self (p : CPath) (h : p ≠ []) : dirC p ≠ p := by
  intro he
  have hl := congrArg List.length he
  rw [dirC, List.length_dropLast] at hl
  cases p with
  | nil => exact h rfl
  | cons a as => rw [List.length_cons] at hl; omega

/-- The stored link target of a force-created symlink resolves back to
the source path. -/
theorem resolveTarget_symlinkLinkTarget (real fake : CPath) :
    resolveTarget fake (symlinkLinkTarget real fake) = real := by
  unfold symlinkLinkTarget
  by_cases hc : (goRelC (dirC fake) real).1 = 0 ∧ (goRelC (dirC fake) real).2 = []
  · rw [if_pos hc]; rfl
  · rw [if_neg hc]
    show (dirC fake).take ((dirC fake).length - (goRelC (dirC fake) real).1)
        ++ (goRelC (dirC fake) real).2 = real
    exact goRelC_resolve (dirC fake) real

end Flk


namespace Flk

theorem symlinkCreate_noforce_exists (fs : Fs) (real fake : CPath)
    (i j : Nat) (n : Node)
    (hreal : fs.node real = some (.file i))
    (hfake : fs.node fake = some n)
    (hparent : fs.node (dirC fake) = some (.dir j)) :
    symlinkCreate fs real fake false = ⟨fs, some .linkFailed⟩ := by
  unfold symlinkCreate
  rw [statFs_file fs real i hreal]
  dsimp only
  rw [if_neg Bool.false_ne_true]
  dsimp only
  rw [ensureDirExists_dir fs fake j hparent]
  dsimp only
  rw [symlinkFs_exists fs _ fake n hfake]

theorem symlinkCreate_force_run (fs : Fs) (real fake : CPath)
    (i j : Nat) (n : Node)
    (hreal : fs.node real = some (.file i))
    (hfake : fs.node fake = some n)
    (hparent : fs.node (dirC fake) = some (.dir j))
    (hfrozen : fs.frozen fake = false)
    (hnil : fake ≠ []) :
    symlinkCreate fs real fake true =
      ⟨Fs.mk (fun q =>
          if q = fake then some (.symlink (symlinkLinkTarget real fake))
          else if q = fake then none else fs.node q) fs.frozen, none⟩ := by
  have hdln := dirC_ne_self fake hnil
  have hp1 : (Fs.mk (fun q => if q = fake then none else fs.node q)
      fs.frozen).node (dirC fake) = some (.dir j) := by
    dsimp only
    rw [if_neg hdln, hparent]
  have hn1 : (Fs.mk (fun q => if q = fake then none else fs.node q)
      fs.frozen).node fake = none := by
    dsimp only
    rw [if_pos rfl]
  unfold symlinkCreate
  rw [statFs_file fs real i hreal]
  dsimp only
  rw [if_pos rfl]
  unfold symlinkForceStep
  have hl : lstatFs fs fake = .ok n := by simp [lstatFs, hfake]
  rw [hl]
  dsimp only
  unfold removeFs
  rw [hfake]
  dsimp only
  rw [hfrozen]
  rw [if_neg Bool.false_ne_true]
  dsimp only
  rw [ensureDirExists_dir _ fake j hp1]
  dsimp only
  rw [ensureDirExists_dir _ fake j hp1]
  dsimp only
  unfold symlinkFs
  rw [hn1]

theorem hardlinkCreate_noforce_exists (fs : Fs) (prim seco : CPath)
    (i j : Nat) (n : Node)
    (hprim : fs.node prim = some (.file i))
    (hseco : fs.node seco = some n)
    (hparent : fs.node (dirC seco) = some (.dir j)) :
    hardlinkCreate fs prim seco false = ⟨fs, some .linkFailed⟩ := by
  unfold hardlinkCreate
  rw [statFs_file fs prim i hprim]
  dsimp only
  rw [if_neg Bool.false_ne_true]
  dsimp only
  rw [ensureDirExists_dir fs seco j hparent]
  dsimp only
  rw [linkFs_exists fs prim seco n hseco]

theorem hardlinkCreate_force_run (fs : Fs) (prim seco : CPath)
    (i m j : Nat)
    (hprim : fs.node prim = some (.file i))
    (hseco : fs.node seco = some (.file m))
    (hparent : fs.node (dirC seco) = some (.dir j))
    (hfrozen : fs.frozen seco = false)
    (hnil : seco ≠ [])
    (hne : prim ≠ seco) :
    hardlinkCreate fs prim seco true =
      ⟨Fs.mk (fun q =>
          if q = seco then some (.file i)
          else if q = seco then none else fs.node q) fs.frozen, none⟩ := by
  have hdln := dirC_ne_self seco hnil
  have hp1 : (Fs.mk (fun q => if q = seco then none else fs.node q)
      fs.frozen).node (dirC seco) = some (.dir j) := by
    dsimp only
    rw [if_neg hdln, hparent]
  have hn1 : (Fs.mk (fun q => if q = seco then none else fs.node q)
      fs.frozen).node seco = none := by
    dsimp only
    rw [if_pos rfl]
  have hpr1 : (Fs.mk (fun q => if q = seco then none else fs.node q)
      fs.frozen).node prim = some (.file i) := by
    dsimp only
    rw [if_neg hne, hprim]
  unfold hardlinkCreate
  rw [statFs_file fs prim i hprim]
  dsimp only
  rw [if_pos rfl]
  unfold hardlinkForceStep
  rw [statFs_file fs seco m hseco]
  dsimp only
  unfold removeFs
  rw [hseco]
  dsimp only
  rw [hfrozen]
  rw [if_neg Bool.false_ne_true]
  dsimp only
  rw [ensureDirExists_dir _ seco j hp1]
  dsimp only
  rw [ensureDirExists_dir _ seco j hp1]
  dsimp only
  unfold linkFs
  rw [hn1]
  dsimp only
  rw [statFs_file _ prim i hpr1]

theorem symlinkCreate_force_remove_fail (fs : Fs) (real fake : CPath)
    (i : Nat) (n : Node)
    (hreal : fs.node real = some (.file i))
    (hfake : fs.node fake = some n)
    (hfrozen : fs.frozen fake = true) :
    symlinkCreate fs real fake true = ⟨fs, some .removeFailed⟩ := by
  unfold symlinkCreate
  rw [statFs_file fs real i hreal]
  dsimp only
  rw [if_pos rfl]
  unfold symlinkForceStep
  have hl : lstatFs fs fake = .ok n := by simp [lstatFs, hfake]
  rw [hl]
  dsimp only
  unfold removeFs
  rw [hfake]
  dsimp only
  rw [hfrozen]
  rw [if_pos rfl]

theorem hardlinkCreate_force_broken_symlink (fs : Fs) (prim seco : CPath)
    (i j : Nat) (t : CTarget)
    (hprim : fs.node prim = some (.file i))
    (hseco : fs.node seco = some (.symlink t))
    (hdead : fs.node (resolveTarget seco t) = none)
    (hparent : fs.node (dirC seco) = some (.dir j)) :
    hardlinkCreate fs prim seco true = ⟨fs, some .linkFailed⟩ := by
  unfold hardlinkCreate
  rw [statFs_file fs prim i hprim]
  dsimp only
  rw [if_pos rfl]
  unfold hardlinkForceStep
  rw [statFs_broken_symlink fs seco t hseco hdead]
  dsimp only
  rw [ensureDirExists_dir fs seco j hparent]
  dsimp only
  rw [ensureDirExists_dir fs seco j hparent]
  dsimp only
  rw [linkFs_exists fs prim seco _ hseco]

theorem hardlinkCreate_force_remove_fail_continues (fs : Fs)
    (prim seco : CPath) (i m j : Nat)
    (hprim : fs.node prim = some (.file i))
    (hseco : fs.node seco = some (.file m))
    (hfrozen : fs.frozen seco = true)
    (hparent : fs.node (dirC seco) = some (.dir j)) :
    hardlinkCreate fs prim seco true = ⟨fs, some .linkFailed⟩ := by
  unfold hardlinkCreate
  rw [statFs_file fs prim i hprim]
  dsimp only
  rw [if_pos rfl]
  unfold hardlinkForceStep
  rw [statFs_file fs seco m hseco]
  dsimp only
  unfold removeFs
  rw [hseco]
  dsimp only
  rw [hfrozen]
  rw [if_pos rfl]
  dsimp only
  rw [ensureDirExists_dir fs seco j hparent]
  dsimp only
  rw [ensureDirExists_dir fs seco j hparent]
  dsimp only
  rw [linkFs_exists fs prim seco _ hseco]

end Flk

namespace Flk

/-- The checker cascade of `checkHardlinkValid` (part_012 lines
204-235) instantiated over the filesystem model: component paths are
absolute, so `prim` is used as-is, and `seco` is used as stored. -/
def checkHardlinkValidFs (fs : Fs) (prim seco : CPath) : Bool × String :=
  match statFs fs prim with
  | .error .notExist => (false, "PRIM_MISSING")
  | .error .accessFail => (false, "PRIM_ACCESS_FAIL")
  | .ok primInfo =>
    match statFs fs seco with
    | .error .notExist => (false, "SECO_MISSING")
    | .error .accessFail => (false, "SECO_ACCESS_FAIL")
    | .ok secoInfo =>
      if sameFileNode primInfo secoInfo then (true, "")
      else (false, "NOT_SAME_FILE")

theorem checkSymlinkValidFs_ok (fs2 : Fs) (real fake : CPath) (i : Nat)
    (h1 : fs2.node fake = some (.symlink (symlinkLinkTarget real fake)))
    (h2 : fs2.node real = some (.file i)) :
    checkSymlinkValidFs fs2 real fake = (true, "") := by
  unfold checkSymlinkValidFs
  have hl : lstatFs fs2 fake = .ok (.symlink (symlinkLinkTarget real fake)) := by
    simp [lstatFs, h1]
  rw [hl]
  dsimp only
  rw [resolveTarget_symlinkLinkTarget]
  rw [statFs_file fs2 real i h2]
  dsimp only
  simp [sameFileNode]

theorem checkHardlinkValidFs_ok (fs2 : Fs) (prim seco : CPath) (i : Nat)
    (h1 : fs2.node prim = some (.file i))
    (h2 : fs2.node seco = some (.file i)) :
    checkHardlinkValidFs fs2 prim seco = (true, "") := by
  unfold checkHardlinkValidFs
  rw [statFs_file fs2 prim i h1, statFs_file fs2 seco i h2]
  dsimp only
  simp [sameFileNode]

end Flk

/-! ## Claim C3 -/

/-- Filesystem for the C3 counterexample: `p` is a regular file, `s` an
existing broken symlink (its target `dead` does not exist), the root is
a directory, and nothing is frozen (removal would succeed). -/
def c3Fs : Flk.Fs :=
  { node := fun p =>
      if p = ["p"] then some (.file 1)
      else if p = ["s"] then some (.symlink (.abs ["dead"]))
      else if p = ([] : List String) then some (.dir 0)
      else none,
    frozen := fun _ => false }

/-- C3 counterexample: `hardlink.Create` with `force=true` against an
existing destination that is a broken symlink *fails* (the following
`os.Stat` does not see the broken symlink, so it is never removed and
the `os.Link` call hits `EEXIST`) and leaves the broken symlink in
place — contrary to the claim that `force=true` against the same
existing destination always succeeds. -/
theorem hardlink_force_broken_dest_counterexample :
    c3Fs.node ["s"] = some (.symlink (.abs ["dead"])) ∧
    c3Fs.frozen ["s"] = false ∧
    (Flk.hardlinkCreate c3Fs ["p"] ["s"] true).err = some .linkFailed ∧
    (Flk.hardlinkCreate c3Fs ["p"] ["s"] true).fs.node ["s"]
      = some (.symlink (.abs ["dead"])) := by
  exact ⟨rfl, rfl, by decide, by decide⟩

/-- C3 amended: for every existing destination (source present, parent
a directory, removal permitted): with `force=false` both create
functions fail and leave the destination unmutated; with `force=true`,
`symlink.Create` succeeds for *any* existing destination node (its
non-following `Lstat` sees broken symlinks too) and the created link
satisfies the Validator's valid check against the source, while
`hardlink.Create` succeeds and satisfies the Validator when the
existing destination is visible to a following stat (here: a regular
file) — an existing broken symlink instead makes it fail (see the
counterexample). -/
theorem createLink_force_semantics
    (fs : Flk.Fs) (real fake prim seco : Flk.CPath)
    (i j k m l : Nat) (n : Flk.Node)
    (hreal : fs.node real = some (.file i))
    (hfake : fs.node fake = some n)
    (hfparent : fs.node (Flk.dirC fake) = some (.dir j))
    (hffrozen : fs.frozen fake = false)
    (hfnil : fake ≠ []) (hfne : real ≠ fake)
    (hprim : fs.node prim = some (.file k))
    (hseco : fs.node seco = some (.file m))
    (hsparent : fs.node (Flk.dirC seco) = some (.dir l))
    (hsfrozen : fs.frozen seco = false)
    (hsnil : seco ≠ []) (hsne : prim ≠ seco) :
    ((Flk.symlinkCreate fs real fake false).err.isSome = true ∧
      (Flk.symlinkCreate fs real fake false).fs.node fake = fs.node fake) ∧
    ((Flk.symlinkCreate fs real fake true).err = none ∧
      Flk.checkSymlinkValidFs (Flk.symlinkCreate fs real fake true).fs real fake
        = (true, "")) ∧
    ((Flk.hardlinkCreate fs prim seco false).err.isSome = true ∧
      (Flk.hardlinkCreate fs prim seco false).fs.node seco = fs.node seco) ∧
    ((Flk.hardlinkCreate fs prim seco true).err = none ∧
      Flk.checkHardlinkValidFs (Flk.hardlinkCreate fs prim seco true).fs prim seco
        = (true, "")) := by
  refine ⟨⟨?_, ?_⟩, ⟨?_, ?_⟩, ⟨?_, ?_⟩, ⟨?_, ?_⟩⟩
  · rw [Flk.symlinkCreate_noforce_exists fs real fake i j n hreal hfake hfparent]
    rfl
  · rw [Flk.symlinkCreate_noforce_exists fs real fake i j n hreal hfake hfparent]
  · rw [Flk.symlinkCreate_force_run fs real fake i j n hreal hfake hfparent
      hffrozen hfnil]
  · rw [Flk.symlinkCreate_force_run fs real fake i j n hreal hfake hfparent
      hffrozen hfnil]
    refine Flk.checkSymlinkValidFs_ok _ real fake i ?_ ?_
    · dsimp only
      rw [if_pos rfl]
    · dsimp only
      rw [if_neg hfne, if_neg hfne, hreal]
  · rw [Flk.hardlinkCreate_noforce_exists fs prim seco k l (.file m) hprim
      hseco hsparent]
    rfl
  · rw [Flk.hardlinkCreate_noforce_exists fs prim seco k l (.file m) hprim
      hseco hsparent]
  · rw [Flk.hardlinkCreate_force_run fs prim seco k m l hprim hseco hsparent
      hsfrozen hsnil hsne]
  · rw [Flk.hardlinkCreate_force_run fs prim seco k m l hprim hseco hsparent
      hsfrozen hsnil hsne]
    refine Flk.checkHardlinkValidFs_ok _ prim seco k ?_ ?_
    · dsimp only
      rw [if_neg hsne, if_neg hsne, hprim]
    · dsimp only
      rw [if_pos rfl]

/-- Filesystem for the C3 witness: sources, destinations and parent
directory all present, nothing frozen. -/
def c3wFs : Flk.Fs :=
  { node := fun p =>
      if p = ["b", "t"] then some (.file 1)
      else if p = ["a", "l"] then some (.file 2)
      else if p = ["a"] then some (.dir 3)
      else if p = ["b", "p"] then some (.file 4)
      else if p = ["a", "s"] then some (.file 5)
      else if p = ["b"] then some (.dir 6)
      else none,
    frozen := fun _ => false }

/-- Witness for the C3 amended theorem at a concrete filesystem. -/
theorem createLink_force_semantics_witness :
    ((Flk.symlinkCreate c3wFs ["b", "t"] ["a", "l"] false).err.isSome = true ∧
      (Flk.symlinkCreate c3wFs ["b", "t"] ["a", "l"] false).fs.node ["a", "l"]
        = c3wFs.node ["a", "l"]) ∧
    ((Flk.symlinkCreate c3wFs ["b", "t"] ["a", "l"] true).err = none ∧
      Flk.checkSymlinkValidFs
          (Flk.symlinkCreate c3wFs ["b", "t"] ["a", "l"] true).fs
          ["b", "t"] ["a", "l"] = (true, "")) ∧
    ((Flk.hardlinkCreate c3wFs ["b", "p"] ["a", "s"] false).err.isSome = true ∧
      (Flk.hardlinkCreate c3wFs ["b", "p"] ["a", "s"] false).fs.node ["a", "s"]
        = c3wFs.node ["a", "s"]) ∧
    ((Flk.hardlinkCreate c3wFs ["b", "p"] ["a", "s"] true).err = none ∧
      Flk.checkHardlinkValidFs
          (Flk.hardlinkCreate c3wFs ["b", "p"] ["a", "s"] true).fs
          ["b", "p"] ["a", "s"] = (true, "")) :=
  createLink_force_semantics c3wFs ["b", "t"] ["a", "l"] ["b", "p"] ["a", "s"]
    1 3 4 5 3 (.file 2)
    (by decide) (by decide) (by decide) (by decide) (by decide) (by decide)
    (by decide) (by decide) (by decide) (by decide) (by decide) (by decide)

/-! ## Claim C4 -/

/-- Filesystem for the C4 counterexample: the destination `s` is an
existing regular file whose removal fails (frozen). -/
def c4Fs : Flk.Fs :=
  { node := fun p =>
      if p = ["p"] then some (.file 1)
      else if p = ["s"] then some (.file 2)
      else if p = ([] : List String) then some (.dir 0)
      else none,
    frozen := fun p => p == ["s"] }

/-- C4 counterexample: in `hardlink.Create` with `force=true`, when the
removal of the existing destination fails, the operation does *not*
abort with the removal error — it continues, attempts the link
creation, and returns the `EEXIST` link-creation error instead, with
the destination still in place. -/
theorem hardlink_force_remove_failure_counterexample :
    c4Fs.node ["s"] = some (.file 2) ∧
    c4Fs.frozen ["s"] = true ∧
    (Flk.hardlinkCreate c4Fs ["p"] ["s"] true).err = some .linkFailed ∧
    some Flk.CreateErr.linkFailed ≠ some Flk.CreateErr.removeFailed ∧
    (Flk.hardlinkCreate c4Fs ["p"] ["s"] true).fs.node ["s"]
      = some (.file 2) := by
  exact ⟨rfl, rfl, by decide, by decide, by decide⟩

/-- C4 amended: the force-existence check and removal-failure handling
differ between the two create functions.  `symlink.Create` decides the
existence of the destination by a non-following `Lstat` and, if the
removal of the existing destination fails, aborts with the removal
error without attempting the link creation.  `hardlink.Create` instead
decides existence by a *following* `Stat` — an existing broken symlink
is not seen and not removed, so the creation then fails with the
`EEXIST` link error — and after a removal failure it continues and
returns the link-creation error rather than the removal error. -/
theorem create_force_existence_and_remove_error
    (fs : Flk.Fs) (real fake prim seco : Flk.CPath) (i k m j : Nat)
    (n : Flk.Node) (t : Flk.CTarget) :
    (fs.node real = some (.file i) → fs.node fake = some n →
      fs.frozen fake = true →
      Flk.symlinkCreate fs real fake true = ⟨fs, some .removeFailed⟩) ∧
    (fs.node prim = some (.file k) → fs.node seco = some (.symlink t) →
      fs.node (Flk.resolveTarget seco t) = none →
      fs.node (Flk.dirC seco) = some (.dir j) →
      Flk.hardlinkCreate fs prim seco true = ⟨fs, some .linkFailed⟩) ∧
    (fs.node prim = some (.file k) → fs.node seco = some (.file m) →
      fs.frozen seco = true → fs.node (Flk.dirC seco) = some (.dir j) →
      Flk.hardlinkCreate fs prim seco true = ⟨fs, some .linkFailed⟩) := by
  refine ⟨?_, ?_, ?_⟩
  · intro h1 h2 h3
    exact Flk.symlinkCreate_force_remove_fail fs real fake i n h1 h2 h3
  · intro h1 h2 h3 h4
    exact Flk.hardlinkCreate_force_broken_symlink fs prim seco k j t h1 h2 h3 h4
  · intro h1 h2 h3 h4
    exact Flk.hardlinkCreate_force_remove_fail_continues fs prim seco k m j
      h1 h2 h3 h4

/-- Filesystem for the C4 witness: a symlink destination whose removal
fails, a broken-symlink hardlink destination, and a frozen regular-file
hardlink destination. -/
def c4wFs : Flk.Fs :=
  { node := fun p =>
      if p = ["r"] then some (.file 1)
      else if p = ["f"] then some (.file 2)
      else if p = ["hp"] then some (.file 3)
      else if p = ["hs"] then some (.symlink (.abs ["gone"]))
      else if p = ["hs2"] then some (.file 4)
      else if p = ([] : List String) then some (.dir 0)
      else none,
    frozen := fun p => p == ["f"] || p == ["hs2"] }

/-- Witness for the C4 amended theorem at a concrete filesystem. -/
theorem create_force_existence_and_remove_error_witness :
    Flk.symlinkCreate c4wFs ["r"] ["f"] true = ⟨c4wFs, some .removeFailed⟩ ∧
    Flk.hardlinkCreate c4wFs ["hp"] ["hs"] true = ⟨c4wFs, some .linkFailed⟩ ∧
    Flk.hardlinkCreate c4wFs ["hp"] ["hs2"] true = ⟨c4wFs, some .linkFailed⟩ := by
  refine ⟨?_, ?_, ?_⟩
  · exact (create_force_existence_and_remove_error c4wFs ["r"] ["f"] ["hp"]
      ["hs"] 1 3 4 0 (.file 2) (.abs ["gone"])).1 (by decide) (by decide)
      (by decide)
  · exact (create_force_existence_and_remove_error c4wFs ["r"] ["f"] ["hp"]
      ["hs"] 1 3 4 0 (.file 2) (.abs ["gone"])).2.1 (by decide) (by decide)
      (by decide) (by decide)
  · exact (create_force_existence_and_remove_error c4wFs ["r"] ["f"] ["hp"]
      ["hs2"] 1 3 4 0 (.file 2) (.abs ["gone"])).2.2 (by decide) (by decide)
      (by decide) (by decide)

namespace Flk

/-! ### Persistence — `Manager.Save` / `LoadFromFile` (part_007)

`encoding/json` is a Go standard-library collaborator; it is modelled
at the JSON-value level: `json.MarshalIndent` of the nested string maps
is a JSON document whose objects list each map's bindings with the keys
in sorted order (Go marshals map keys sorted), and `json.Unmarshal`
reads such a document back into nested maps.  The byte-level rendering
of a JSON value is a bijection handled entirely inside the Go library,
so files store JSON values directly. -/

/-- A JSON value of the shapes the registry uses. -/
inductive Jval where
  | str (s : String)
  | arr (l : List Jval)
  | obj (l : List (String × Jval))

/-- Sort an object's bindings by key (Go's `json.Marshal` writes map
keys in sorted order). -/
def sortByKey {α : Type} (l : List (String × α)) : List (String × α) :=
  l.insertionSort (fun a b => a.1 ≤ b.1)

/-- `mapM` in the `Option` monad (the element-wise JSON decoder). -/
def omapM {α β : Type} (p : α → Option β) : List α → Option (List β)
  | [] => some []
  | a :: as =>
    match p a, omapM p as with
    | some b, some bs => some (b :: bs)
    | _, _ => none

/-- Marshal one entry (`map[string]string`). -/
def jEntry (e : Entry) : Jval :=
  .obj (sortByKey (e.map (fun kv => (kv.1, Jval.str kv.2))))

/-- Marshal a `PathGroup`. -/
def jPathGroup (pg : PathGroup) : Jval :=
  .obj (sortByKey (pg.map (fun kv => (kv.1, Jval.arr (kv.2.map jEntry)))))

/-- Marshal a `TypeGroup`. -/
def jTypeGroup (tg : TypeGroup) : Jval :=
  .obj (sortByKey (tg.map (fun kv => (kv.1, jPathGroup kv.2))))

/-- Marshal a `DeviceGroup`. -/
def jDeviceGroup (dg : DeviceGroup) : Jval :=
  .obj (sortByKey (dg.map (fun kv => (kv.1, jTypeGroup kv.2))))

/-- Marshal a `RootConfig` (`json.MarshalIndent(m.Data, ...)`). -/
def jRoot (m : RootConfig) : Jval :=
  .obj (sortByKey (m.map (fun kv => (kv.1, jDeviceGroup kv.2))))

/-- Decode a JSON string. -/
def decStr : Jval → Option String
  | .str s => some s
  | _ => none

/-- Unmarshal one entry. -/
def unJEntry : Jval → Option Entry
  | .obj l => omapM (fun kv => (decStr kv.2).map (fun b => (kv.1, b))) l
  | _ => none

/-- Unmarshal an entry list. -/
def unJEntryList : Jval → Option (List Entry)
  | .arr l => omapM unJEntry l
  | _ => none

/-- Unmarshal a `PathGroup`. -/
def unJPathGroup : Jval → Option PathGroup
  | .obj l => omapM (fun kv => (unJEntryList kv.2).map (fun b => (kv.1, b))) l
  | _ => none

/-- Unmarshal a `TypeGroup`. -/
def unJTypeGroup : Jval → Option TypeGroup
  | .obj l => omapM (fun kv => (unJPathGroup kv.2).map (fun b => (kv.1, b))) l
  | _ => none

/-- Unmarshal a `DeviceGroup`. -/
def unJDeviceGroup : Jval → Option DeviceGroup
  | .obj l => omapM (fun kv => (unJTypeGroup kv.2).map (fun b => (kv.1, b))) l
  | _ => none

/-- Unmarshal a `RootConfig` (`json.Unmarshal(b, &data)`). -/
def unJRoot : Jval → Option RootConfig
  | .obj l => omapM (fun kv => (unJDeviceGroup kv.2).map (fun b => (kv.1, b))) l
  | _ => none

/-- Embedding of `expandStorePath` (part_007 lines 102-116).  Unlike
`pathutil.ExpandHome`, a `~`-prefixed path that is neither `~` nor
`~/...` nor `~\...` falls through and is returned unchanged. -/
def expandStorePath (home : Option String) (p : String) : Except Unit String :=
  if strStartsWith p "~" then
    match home with
    | none => .error ()
    | some h =>
      if p = "~" then .ok h
      else if strStartsWith p "~/" ∨ strStartsWith p "~\\" then
        .ok (goJoin2 h (strDrop p 2))
      else .ok p
  else .ok p

/-- The filesystem operations a save performs, in order. -/
inductive FsOp where
  | mkdirAll (dir : String)
  | writeFile (path : String) (content : Jval)
  | rename (src dst : String)

/-- The persisted files: path → JSON document. -/
abbrev FileStore := String → Option Jval

/-- Embedding of `Manager.Save` (part_007 lines 119-135): marshal the
data, expand the store path, `os.MkdirAll` the parent, then
`os.WriteFile` the document **directly to the final path** — there is
no temporary file and no rename.  Returns the resulting file store and
the ordered operations performed. -/
def managerSave (home : Option String) (m : RootConfig) (filePath : String)
    (store : FileStore) : Except Unit (FileStore × List FsOp) :=
  let data := jRoot m
  match expandStorePath home filePath with
  | .error e => .error e
  | .ok expanded =>
    .ok (fun q => if q = expanded then some data else store q,
         [FsOp.mkdirAll (goDir expanded), FsOp.writeFile expanded data])

/-- Embedding of `LoadFromFile` (part_007 lines 138-156): expand the
path, read the file (`os.ReadFile` errors when it is missing),
unmarshal.  (The empty-file branch of the Go code is not representable
in the JSON-value file model and is not needed by the claims.) -/
def loadFromFile (home : Option String) (filePath : String)
    (store : FileStore) : Except Unit RootConfig :=
  match expandStorePath home filePath with
  | .error e => .error e
  | .ok expanded =>
    match store expanded with
    | none => .error ()
    | some j =>
      match unJRoot j with
      | none => .error ()
      | some data => .ok data

/-- `Save` to a path followed by `Load` from the same path. -/
def savedThenLoaded (home : Option String) (m : RootConfig)
    (filePath : String) (store : FileStore) : Except Unit RootConfig :=
  match managerSave home m filePath store with
  | .error e => .error e
  | .ok (store2, _) => loadFromFile home filePath store2

/-- The atomic-replacement discipline claimed by the spec for a save
whose final path is `finalPath`: the serialized document goes to a
temporary file, never directly to the final path, which only ever
changes through a rename. -/
def atomicReplaceOps (ops : List FsOp) (finalPath : String) : Prop :=
  ∀ op ∈ ops, ∀ j : Jval, op ≠ FsOp.writeFile finalPath j

end Flk


/-! ## Claim C6 -/

/-- C6: evaluated at a concrete save of the empty registry to
`/tmp/s.json`, `Manager.Save` performs `MkdirAll` followed by a
`WriteFile` of the serialized document **directly to the final registry
path** — no temporary file, no rename — so its operation trace violates
the claimed atomic write-to-temp-then-rename discipline: a crash
mid-write leaves a partially written final file. -/
theorem managerSave_not_atomic :
    Flk.managerSave (some "/home/u") [] "/tmp/s.json" (fun _ => none)
      = .ok (fun q => if q = "/tmp/s.json" then some (Flk.jRoot []) else none,
          [.mkdirAll "/tmp", .writeFile "/tmp/s.json" (Flk.jRoot [])]) ∧
    ¬ Flk.atomicReplaceOps
        [.mkdirAll "/tmp", .writeFile "/tmp/s.json" (Flk.jRoot [])]
        "/tmp/s.json" := by
  constructor
  · rfl
  · intro h
    exact (h (.writeFile "/tmp/s.json" (Flk.jRoot []))
      (List.Mem.tail _ (List.Mem.head _)) (Flk.jRoot [])) rfl

namespace Flk

/-! ### Round-trip lemmas for the JSON encoding -/

theorem omapM_of_forall {α β : Type} (p : α → Option β) (g : α → β) :
    ∀ (l : List α), (∀ a ∈ l, p a = some (g a)) → omapM p l = some (l.map g) := by
  intro l
  induction l with
  | nil => intro _; rfl
  | cons a as ih =>
    intro h
    have ha := h a (List.mem_cons_self a as)
    have hrest := ih (fun x hx => h x (List.mem_cons_of_mem a hx))
    simp [omapM, ha, hrest]

theorem omapM_map_rel {α β γ : Type} (f : α → β) (p : β → Option γ)
    (r : α → γ → Prop) :
    ∀ (l : List α), (∀ a ∈ l, ∃ c, p (f a) = some c ∧ r a c) →
      ∃ l2, omapM p (l.map f) = some l2 ∧ List.Forall₂ r l l2 := by
  intro l
  induction l with
  | nil => intro _; exact ⟨[], rfl, List.Forall₂.nil⟩
  | cons a as ih =>
    intro h
    obtain ⟨c, hc, hr⟩ := h a (List.mem_cons_self a as)
    obtain ⟨l2, hl2, hfa⟩ := ih (fun x hx => h x (List.mem_cons_of_mem a hx))
    refine ⟨c :: l2, ?_, List.Forall₂.cons hr hfa⟩
    simp [omapM, hc, hl2]

theorem sortByKey_perm {α : Type} (l : List (String × α)) :
    (sortByKey l).Perm l :=
  List.perm_insertionSort _ l

/-- Round-trip through one sorted JSON object level: decoding the
marshalled object yields a permutation of a list that is pairwise
(same key, value round-tripped) related to the original. -/
theorem obj_roundtrip {α β : Type} (encV : α → Jval) (decV : Jval → Option β)
    (dflt : β) (r : α → β → Prop) (z : List (String × α))
    (h : ∀ kv ∈ z, ∃ b, decV (encV kv.2) = some b ∧ r kv.2 b) :
    ∃ z2 mid, omapM (fun kv => (decV kv.2).map (fun b => (kv.1, b)))
        (sortByKey (z.map (fun kv => (kv.1, encV kv.2)))) = some z2 ∧
      z2.Perm mid ∧
      List.Forall₂ (fun a b => a.1 = b.1 ∧ r a.2 b.2) z mid := by
  have hperm := sortByKey_perm (z.map (fun kv => (kv.1, encV kv.2)))
  have hall : ∀ a ∈ sortByKey (z.map (fun kv => (kv.1, encV kv.2))),
      (fun kv => (decV kv.2).map (fun b => (kv.1, b))) a
        = some ((fun kv => (kv.1, (decV kv.2).getD dflt)) a) := by
    intro a ha
    have hmem : a ∈ z.map (fun kv => (kv.1, encV kv.2)) := hperm.mem_iff.mp ha
    obtain ⟨kv, hkv, rfl⟩ := List.mem_map.mp hmem
    obtain ⟨b, hb, _⟩ := h kv hkv
    simp [hb]
  refine ⟨_, (z.map (fun kv => (kv.1, encV kv.2))).map
      (fun kv => (kv.1, (decV kv.2).getD dflt)),
    omapM_of_forall _ _ _ hall, List.Perm.map _ hperm, ?_⟩
  rw [List.map_map]
  rw [List.forall₂_map_right_iff]
  rw [List.forall₂_same]
  intro kv hkv
  obtain ⟨b, hb, hr⟩ := h kv hkv
  exact ⟨rfl, by simpa [hb] using hr⟩

/-- Pairwise round-trip relations, original on the left, decoded on the
right. -/
def rEntry (a b : Entry) : Prop := b.Perm a

/-- Entry lists are decoded pointwise. -/
def rEntries : List Entry → List Entry → Prop := List.Forall₂ rEntry

/-- Decoded `PathGroup`: a permutation of a pairwise round-tripped
list. -/
def rPG (a b : PathGroup) : Prop :=
  ∃ mid, b.Perm mid ∧
    List.Forall₂ (fun x y => x.1 = y.1 ∧ rEntries x.2 y.2) a mid

/-- Decoded `TypeGroup`. -/
def rTG (a b : TypeGroup) : Prop :=
  ∃ mid, b.Perm mid ∧
    List.Forall₂ (fun x y => x.1 = y.1 ∧ rPG x.2 y.2) a mid

/-- Decoded `DeviceGroup`. -/
def rDG (a b : DeviceGroup) : Prop :=
  ∃ mid, b.Perm mid ∧
    List.Forall₂ (fun x y => x.1 = y.1 ∧ rTG x.2 y.2) a mid

/-- Decoded `RootConfig`. -/
def rRoot (a b : RootConfig) : Prop :=
  ∃ mid, b.Perm mid ∧
    List.Forall₂ (fun x y => x.1 = y.1 ∧ rDG x.2 y.2) a mid

theorem forall2_pair_eq {α : Type} :
    ∀ {z mid : List (String × α)},
      List.Forall₂ (fun a b => a.1 = b.1 ∧ a.2 = b.2) z mid → z = mid := by
  intro z mid h
  induction h with
  | nil => rfl
  | cons hab _ ih =>
    rw [ih]
    congr 1
    exact Prod.ext hab.1 hab.2

theorem roundtrip_entry (e : Entry) :
    ∃ e2, unJEntry (jEntry e) = some e2 ∧ rEntry e e2 := by
  obtain ⟨z2, mid, hm, hperm, hfa⟩ :=
    obj_roundtrip Jval.str decStr "" Eq e (fun kv _ => ⟨kv.2, rfl, rfl⟩)
  have hz : e = mid := forall2_pair_eq hfa
  exact ⟨z2, by simpa [unJEntry, jEntry] using hm, hz ▸ hperm⟩

theorem roundtrip_entryList (es : List Entry) :
    ∃ es2, unJEntryList (.arr (es.map jEntry)) = some es2 ∧ rEntries es es2 := by
  obtain ⟨l2, hl2, hfa⟩ :=
    omapM_map_rel jEntry unJEntry rEntry es (fun e _ => roundtrip_entry e)
  exact ⟨l2, by simpa [unJEntryList] using hl2, hfa⟩

theorem roundtrip_pg (pg : PathGroup) :
    ∃ pg2, unJPathGroup (jPathGroup pg) = some pg2 ∧ rPG pg pg2 := by
  obtain ⟨z2, mid, hm, hperm, hfa⟩ :=
    obj_roundtrip (fun es => Jval.arr (es.map jEntry)) unJEntryList []
      rEntries pg (fun kv _ => roundtrip_entryList kv.2)
  exact ⟨z2, by simpa [unJPathGroup, jPathGroup] using hm, mid, hperm, hfa⟩

theorem roundtrip_tg (tg : TypeGroup) :
    ∃ tg2, unJTypeGroup (jTypeGroup tg) = some tg2 ∧ rTG tg tg2 := by
  obtain ⟨z2, mid, hm, hperm, hfa⟩ :=
    obj_roundtrip jPathGroup unJPathGroup [] rPG tg
      (fun kv _ => roundtrip_pg kv.2)
  exact ⟨z2, by simpa [unJTypeGroup, jTypeGroup] using hm, mid, hperm, hfa⟩

theorem roundtrip_dg (dg : DeviceGroup) :
    ∃ dg2, unJDeviceGroup (jDeviceGroup dg) = some dg2 ∧ rDG dg dg2 := by
  obtain ⟨z2, mid, hm, hperm, hfa⟩ :=
    obj_roundtrip jTypeGroup unJTypeGroup [] rTG dg
      (fun kv _ => roundtrip_tg kv.2)
  exact ⟨z2, by simpa [unJDeviceGroup, jDeviceGroup] using hm, mid, hperm, hfa⟩

theorem roundtrip_root (m : RootConfig) :
    ∃ m2, unJRoot (jRoot m) = some m2 ∧ rRoot m m2 := by
  obtain ⟨z2, mid, hm, hperm, hfa⟩ :=
    obj_roundtrip jDeviceGroup unJDeviceGroup [] rDG m
      (fun kv _ => roundtrip_dg kv.2)
  exact ⟨z2, by simpa [unJRoot, jRoot] using hm, mid, hperm, hfa⟩

end Flk


namespace Flk

/-! ### Lookup preservation under decoding -/

/-- Relate two optional values pointwise. -/
def optR {α β : Type} (r : α → β → Prop) : Option α → Option β → Prop
  | none, none => True
  | some a, some b => r a b
  | _, _ => False

theorem alookup_mem {α : Type} (k : String) :
    ∀ {l : List (String × α)} {v}, alookup k l = some v → (k, v) ∈ l := by
  intro l
  induction l with
  | nil => intro v h; simp [alookup] at h
  | cons kv rest ih =>
    obtain ⟨k2, v2⟩ := kv
    intro v h
    by_cases hk2 : k2 = k
    · simp only [alookup, if_pos hk2] at h
      obtain rfl := Option.some.inj h
      subst hk2
      exact List.mem_cons_self _ _
    · simp only [alookup, if_neg hk2] at h
      exact List.mem_cons_of_mem _ (ih h)

theorem alookup_perm {α : Type} :
    ∀ {l1 l2 : List (String × α)}, l1.Perm l2 →
      (l1.map Prod.fst).Nodup → ∀ k, alookup k l1 = alookup k l2 := by
  intro l1 l2 h
  induction h with
  | nil => intro _ _; rfl
  | cons x h ih =>
    intro nd k
    rw [List.map_cons] at nd
    have nd2 := (List.nodup_cons.mp nd).2
    obtain ⟨x1, x2⟩ := x
    by_cases hk : x1 = k
    · simp [alookup, hk]
    · simp only [alookup, if_neg hk]
      exact ih nd2 k
  | swap x y l =>
    intro nd k
    rw [List.map_cons, List.map_cons] at nd
    have hnotin := (List.nodup_cons.mp nd).1
    have hyx : y.1 ≠ x.1 := fun he => hnotin (by rw [he]; exact List.mem_cons_self _ _)
    obtain ⟨y1, y2⟩ := y
    obtain ⟨x1, x2⟩ := x
    by_cases h1 : y1 = k
    · have h2 : ¬ x1 = k := fun hx => hyx (h1.trans hx.symm)
      simp [alookup, h1, h2]
    · by_cases h2 : x1 = k <;> simp [alookup, h1, h2]
  | trans p q ih1 ih2 =>
    intro nd k
    have nd2 := (List.Perm.nodup_iff (List.Perm.map Prod.fst p)).mp nd
    exact (ih1 nd k).trans (ih2 nd2 k)

theorem alookup_forall2 {α β : Type} (rV : α → β → Prop) :
    ∀ {z : List (String × α)} {mid : List (String × β)},
      List.Forall₂ (fun a b => a.1 = b.1 ∧ rV a.2 b.2) z mid →
      ∀ k, optR rV (alookup k z) (alookup k mid) := by
  intro z mid h
  induction h with
  | nil => intro k; exact trivial
  | @cons a b z1 mid1 hab hrest ih =>
    intro k
    obtain ⟨a1, a2⟩ := a
    obtain ⟨b1, b2⟩ := b
    obtain ⟨hfst, hr⟩ := hab
    dsimp only at hfst
    by_cases hk : a1 = k
    · simp only [alookup, if_pos hk, if_pos (hfst ▸ hk)]
      exact hr
    · simp only [alookup, if_neg hk, if_neg (hfst ▸ hk)]
      exact ih k

theorem forall2_keys {α β : Type} {r : α → β → Prop} :
    ∀ {z : List (String × α)} {mid : List (String × β)},
      List.Forall₂ (fun a b => a.1 = b.1 ∧ r a.2 b.2) z mid →
      z.map Prod.fst = mid.map Prod.fst := by
  intro z mid h
  induction h with
  | nil => rfl
  | cons hab _ ih => simp [List.map_cons, hab.1, ih]

theorem optR_alookup_level {α β : Type} {rV : α → β → Prop}
    {z : List (String × α)} {z2 : List (String × β)}
    (h : ∃ mid, z2.Perm mid ∧
      List.Forall₂ (fun a b => a.1 = b.1 ∧ rV a.2 b.2) z mid)
    (nd : (z.map Prod.fst).Nodup) (k : String) :
    optR rV (alookup k z) (alookup k z2) := by
  obtain ⟨mid, hperm, hfa⟩ := h
  have hkeys := forall2_keys hfa
  have ndz2 : (z2.map Prod.fst).Nodup :=
    (List.Perm.nodup_iff (hperm.map Prod.fst)).mpr (hkeys ▸ nd)
  rw [alookup_perm hperm ndz2 k]
  exact alookup_forall2 rV hfa k

/-- Key-uniqueness of every map level of a registry (Go maps have
unique keys; the association-list model records it as an invariant). -/
structure RegNodup (m : RootConfig) : Prop where
  top : (m.map Prod.fst).Nodup
  dev : ∀ kv ∈ m, (kv.2.map Prod.fst).Nodup
  typ : ∀ kv ∈ m, ∀ kv2 ∈ kv.2, (kv2.2.map Prod.fst).Nodup
  pth : ∀ kv ∈ m, ∀ kv2 ∈ kv.2, ∀ kv3 ∈ kv2.2, (kv3.2.map Prod.fst).Nodup
  ent : ∀ kv ∈ m, ∀ kv2 ∈ kv.2, ∀ kv3 ∈ kv2.2, ∀ kv4 ∈ kv3.2,
    ∀ e ∈ kv4.2, (e.map Prod.fst).Nodup

/-- Two entries are equal as field mappings. -/
def entryEquiv (e1 e2 : Entry) : Prop := ∀ k, alookup k e1 = alookup k e2

/-- Entry lists equal in length and pointwise as mappings (order
preserved). -/
def entryListOptEquiv (o1 o2 : Option (List Entry)) : Prop :=
  optR (List.Forall₂ entryEquiv) o1 o2

/-- Two registries carry an equal set of (platform, device, linkType,
originDir) → entry-list mappings, order within each list preserved. -/
def regEquiv (m1 m2 : RootConfig) : Prop :=
  ∀ p d t o, entryListOptEquiv (entriesAt m1 p d t o) (entriesAt m2 p d t o)

/-- `regEquiv` against the result of a fallible load. -/
def regEquivE (m : RootConfig) : Except Unit RootConfig → Prop
  | .ok m2 => regEquiv m m2
  | .error _ => False

theorem rEntries_to_equiv :
    ∀ {es es2 : List Entry}, rEntries es es2 →
      (∀ e ∈ es, (e.map Prod.fst).Nodup) → List.Forall₂ entryEquiv es es2 := by
  intro es es2 h
  induction h with
  | nil => intro _; exact .nil
  | cons hab hrest ih =>
    intro hnd
    refine .cons ?_ (ih (fun e he => hnd e (List.mem_cons_of_mem _ he)))
    intro k
    exact alookup_perm hab.symm (hnd _ (List.mem_cons_self _ _)) k

theorem rRoot_regEquiv {m m2 : RootConfig} (hr : rRoot m m2)
    (nd : RegNodup m) : regEquiv m m2 := by
  intro p d t o
  simp only [entriesAt, bind_alookup]
  have h1 : optR rDG (alookup p m) (alookup p m2) :=
    optR_alookup_level hr nd.top p
  cases hm1 : alookup p m with
  | none =>
    cases hm2 : alookup p m2 with
    | none => exact trivial
    | some dg2 => rw [hm1, hm2] at h1; exact h1.elim
  | some dg =>
    cases hm2 : alookup p m2 with
    | none => rw [hm1, hm2] at h1; exact h1.elim
    | some dg2 =>
      rw [hm1, hm2] at h1
      have hmem1 := alookup_mem p hm1
      simp only [Option.getD_some]
      have h2 : optR rTG (alookup d dg) (alookup d dg2) :=
        optR_alookup_level h1 (nd.dev _ hmem1) d
      cases hm3 : alookup d dg with
      | none =>
        cases hm4 : alookup d dg2 with
        | none => exact trivial
        | some tg2 => rw [hm3, hm4] at h2; exact h2.elim
      | some tg =>
        cases hm4 : alookup d dg2 with
        | none => rw [hm3, hm4] at h2; exact h2.elim
        | some tg2 =>
          rw [hm3, hm4] at h2
          have hmem2 := alookup_mem d hm3
          simp only [Option.getD_some]
          have h3 : optR rPG (alookup t tg) (alookup t tg2) :=
            optR_alookup_level h2 (nd.typ _ hmem1 _ hmem2) t
          cases hm5 : alookup t tg with
          | none =>
            cases hm6 : alookup t tg2 with
            | none => exact trivial
            | some pg2 => rw [hm5, hm6] at h3; exact h3.elim
          | some pg =>
            cases hm6 : alookup t tg2 with
            | none => rw [hm5, hm6] at h3; exact h3.elim
            | some pg2 =>
              rw [hm5, hm6] at h3
              have hmem3 := alookup_mem t hm5
              simp only [Option.getD_some]
              have h4 : optR rEntries (alookup o pg) (alookup o pg2) :=
                optR_alookup_level h3 (nd.pth _ hmem1 _ hmem2 _ hmem3) o
              cases hm7 : alookup o pg with
              | none =>
                cases hm8 : alookup o pg2 with
                | none => exact trivial
                | some es2 => rw [hm7, hm8] at h4; exact h4.elim
              | some es =>
                cases hm8 : alookup o pg2 with
                | none => rw [hm7, hm8] at h4; exact h4.elim
                | some es2 =>
                  rw [hm7, hm8] at h4
                  have hmem4 := alookup_mem o hm7
                  exact rEntries_to_equiv h4
                    (fun e he => nd.ent _ hmem1 _ hmem2 _ hmem3 _ hmem4 e he)

end Flk


namespace Flk

/-! ### Key-uniqueness is preserved by `AddRecord` -/

theorem mem_keys_aupsert {α : Type} (k : String) (f : Option α → α) :
    ∀ (l : List (String × α)) (k2),
      k2 ∈ (aupsert k f l).map Prod.fst → k2 ∈ l.map Prod.fst ∨ k2 = k := by
  intro l
  induction l with
  | nil =>
    intro k2 h
    simp [aupsert] at h
    exact Or.inr h
  | cons kv rest ih =>
    obtain ⟨k3, v⟩ := kv
    intro k2 h
    by_cases hk3 : k3 = k
    · simp only [aupsert, if_pos hk3, List.map_cons] at h
      exact Or.inl (by simpa using h)
    · simp only [aupsert, if_neg hk3, List.map_cons] at h
      rcases List.mem_cons.mp h with h | h
      · exact Or.inl (by simp [h])
      · rcases ih k2 h with h2 | h2
        · exact Or.inl (List.mem_cons_of_mem _ h2)
        · exact Or.inr h2

theorem nodup_keys_aupsert {α : Type} (k : String) (f : Option α → α) :
    ∀ (l : List (String × α)), (l.map Prod.fst).Nodup →
      ((aupsert k f l).map Prod.fst).Nodup := by
  intro l
  induction l with
  | nil => intro _; simp [aupsert]
  | cons kv rest ih =>
    obtain ⟨k3, v⟩ := kv
    intro nd
    rw [List.map_cons] at nd
    obtain ⟨hnotin, nd2⟩ := List.nodup_cons.mp nd
    by_cases hk3 : k3 = k
    · simp only [aupsert, if_pos hk3, List.map_cons]
      exact List.nodup_cons.mpr ⟨hnotin, nd2⟩
    · simp only [aupsert, if_neg hk3, List.map_cons]
      refine List.nodup_cons.mpr ⟨?_, ih nd2⟩
      intro hmem
      rcases mem_keys_aupsert k f rest k3 hmem with h | h
      · exact hnotin h
      · exact hk3 h

theorem mem_aupsert {α : Type} (k : String) (f : Option α → α) :
    ∀ (l : List (String × α)) (x), x ∈ aupsert k f l →
      x ∈ l ∨ x.1 = k ∧
        (x.2 = f none ∨ ∃ v, (k, v) ∈ l ∧ x.2 = f (some v)) := by
  intro l
  induction l with
  | nil =>
    intro x h
    simp only [aupsert, List.mem_singleton] at h
    exact Or.inr ⟨by simp [h], Or.inl (by simp [h])⟩
  | cons kv rest ih =>
    obtain ⟨k3, v⟩ := kv
    intro x h
    by_cases hk3 : k3 = k
    · simp only [aupsert, if_pos hk3] at h
      rcases List.mem_cons.mp h with h | h
      · subst hk3
        exact Or.inr ⟨by simp [h], Or.inr ⟨v, List.mem_cons_self _ _,
          by simp [h]⟩⟩
      · exact Or.inl (List.mem_cons_of_mem _ h)
    · simp only [aupsert, if_neg hk3] at h
      rcases List.mem_cons.mp h with h | h
      · exact Or.inl (by simp [h])
      · rcases ih x h with h2 | ⟨he, h3⟩
        · exact Or.inl (List.mem_cons_of_mem _ h2)
        · refine Or.inr ⟨he, ?_⟩
          rcases h3 with h3 | ⟨v2, hv2, hx⟩
          · exact Or.inl h3
          · exact Or.inr ⟨v2, List.mem_cons_of_mem _ hv2, hx⟩

/-- One map level of the registry nodup invariant, preserved by an
upsert whose new value keeps the value property. -/
theorem aupsert_level_nodup {α : Type} (k : String) (f : Option α → α)
    (P : α → Prop) (l : List (String × α))
    (hl : (l.map Prod.fst).Nodup ∧ ∀ kv ∈ l, P kv.2)
    (hfnone : P (f none))
    (hfsome : ∀ v, (k, v) ∈ l → P (f (some v))) :
    ((aupsert k f l).map Prod.fst).Nodup ∧ ∀ kv ∈ aupsert k f l, P kv.2 := by
  refine ⟨nodup_keys_aupsert _ _ _ hl.1, ?_⟩
  intro kv hkv
  rcases mem_aupsert _ _ _ _ hkv with h | ⟨_, hv | ⟨v, hvmem, hv⟩⟩
  · exact hl.2 _ h
  · rw [hv]; exact hfnone
  · rw [hv]; exact hfsome v hvmem

/-- Nested nodup invariants per level. -/
def pgNodup (pg : PathGroup) : Prop :=
  (pg.map Prod.fst).Nodup ∧ ∀ kv ∈ pg, ∀ e ∈ kv.2, (e.map Prod.fst).Nodup

/-- Level-3 invariant. -/
def tgNodup (tg : TypeGroup) : Prop :=
  (tg.map Prod.fst).Nodup ∧ ∀ kv ∈ tg, pgNodup kv.2

/-- Level-2 invariant. -/
def dgNodup (dg : DeviceGroup) : Prop :=
  (dg.map Prod.fst).Nodup ∧ ∀ kv ∈ dg, tgNodup kv.2

/-- Whole-registry invariant, nested form. -/
def rootNodup (m : RootConfig) : Prop :=
  (m.map Prod.fst).Nodup ∧ ∀ kv ∈ m, dgNodup kv.2

theorem processedFields_keys (home : String) (fields : Entry) :
    (processedFields home fields).map Prod.fst = fields.map Prod.fst := by
  unfold processedFields
  rw [List.map_map]
  rfl

/-- A registry built purely through `AddRecord` calls, each with
unique field keys (Go maps always have unique keys). -/
inductive Built (home goos : String) : RootConfig → Prop where
  | nil : Built home goos []
  | step (m : RootConfig) (device lt pp : String) (fields : Entry)
      (hm : Built home goos m)
      (hf : (fields.map Prod.fst).Nodup) :
      Built home goos (addRecord home goos m device lt pp fields)

theorem pgNodup_upsert (folded : String) (pe : Entry)
    (hpe : (pe.map Prod.fst).Nodup) (pg : PathGroup) (hpg : pgNodup pg) :
    pgNodup (aupsert folded (fun es => es.getD [] ++ [pe]) pg) := by
  refine aupsert_level_nodup folded _
    (fun es => ∀ e ∈ es, (e.map Prod.fst).Nodup) pg ⟨hpg.1, hpg.2⟩ ?_ ?_
  · intro e he
    simp only [Option.getD_none, List.nil_append, List.mem_singleton] at he
    rw [he]; exact hpe
  · intro es hes e he
    simp only [Option.getD_some] at he
    rcases List.mem_append.mp he with h | h
    · exact hpg.2 _ hes e h
    · rw [List.mem_singleton.mp h]; exact hpe

theorem tgNodup_upsert (lt folded : String) (pe : Entry)
    (hpe : (pe.map Prod.fst).Nodup) (tg : TypeGroup) (htg : tgNodup tg) :
    tgNodup (aupsert lt
      (fun pg => aupsert folded (fun es => es.getD [] ++ [pe]) (pg.getD []))
      tg) := by
  refine aupsert_level_nodup lt _ pgNodup tg ⟨htg.1, htg.2⟩ ?_ ?_
  · simp only [Option.getD_none]
    exact pgNodup_upsert folded pe hpe [] ⟨List.nodup_nil, by simp⟩
  · intro pg hm
    simp only [Option.getD_some]
    exact pgNodup_upsert folded pe hpe pg (htg.2 _ hm)

theorem dgNodup_upsert (d2 lt folded : String) (pe : Entry)
    (hpe : (pe.map Prod.fst).Nodup) (dg : DeviceGroup) (hdg : dgNodup dg) :
    dgNodup (aupsert d2
      (fun tg => aupsert lt
        (fun pg => aupsert folded (fun es => es.getD [] ++ [pe]) (pg.getD []))
        (tg.getD []))
      dg) := by
  refine aupsert_level_nodup d2 _ tgNodup dg ⟨hdg.1, hdg.2⟩ ?_ ?_
  · simp only [Option.getD_none]
    exact tgNodup_upsert lt folded pe hpe [] ⟨List.nodup_nil, by simp⟩
  · intro tg hm
    simp only [Option.getD_some]
    exact tgNodup_upsert lt folded pe hpe tg (hdg.2 _ hm)

theorem built_rootNodup {home goos : String} :
    ∀ {m}, Built home goos m → rootNodup m := by
  intro m hb
  induction hb with
  | nil => exact ⟨List.nodup_nil, by simp⟩
  | step m device lt pp fields hm hf ih =>
    have hpe : ((processedFields home fields).map Prod.fst).Nodup := by
      rw [processedFields_keys]; exact hf
    unfold addRecord
    refine aupsert_level_nodup goos _ dgNodup m ⟨ih.1, ih.2⟩ ?_ ?_
    · simp only [Option.getD_none]
      exact dgNodup_upsert (effectiveDevice device) lt (foldPath home pp)
        (processedFields home fields) hpe [] ⟨List.nodup_nil, by simp⟩
    · intro dg hdg
      simp only [Option.getD_some]
      exact dgNodup_upsert (effectiveDevice device) lt (foldPath home pp)
        (processedFields home fields) hpe dg (ih.2 _ hdg)

theorem rootNodup_regNodup {m : RootConfig} (h : rootNodup m) : RegNodup m :=
  ⟨h.1,
   fun kv hkv => (h.2 kv hkv).1,
   fun kv hkv kv2 h2 => ((h.2 kv hkv).2 kv2 h2).1,
   fun kv hkv kv2 h2 kv3 h3 => (((h.2 kv hkv).2 kv2 h2).2 kv3 h3).1,
   fun kv hkv kv2 h2 kv3 h3 kv4 h4 e he =>
     (((h.2 kv hkv).2 kv2 h2).2 kv3 h3).2 kv4 h4 e he⟩

end Flk


/-! ## Claim C7 -/

/-- C7: for every registry built purely through `AddRecord` calls,
`Save` to a path followed by `Load` from that same path succeeds and
yields a registry with an equal set of (platform, device, linkType,
originDir) → entry-list mappings, with the order of entries within each
list preserved (`regEquivE` bundles load success with the mapping
equivalence `regEquiv`). -/
theorem addRecord_save_load_roundtrip
    (home : Option String) (fhome goos : String) (m : Flk.RootConfig)
    (filePath q : String) (store : Flk.FileStore)
    (hb : Flk.Built fhome goos m)
    (hexp : Flk.expandStorePath home filePath = .ok q) :
    Flk.regEquivE m (Flk.savedThenLoaded home m filePath store) := by
  unfold Flk.savedThenLoaded Flk.managerSave Flk.loadFromFile
  rw [hexp]
  dsimp only
  rw [if_pos rfl]
  obtain ⟨m2, hm2, hr⟩ := Flk.roundtrip_root m
  dsimp only
  rw [hm2]
  exact Flk.rRoot_regEquiv hr (Flk.rootNodup_regNodup (Flk.built_rootNodup hb))

/-- A registry built by one concrete `AddRecord` call. -/
def c7Reg : Flk.RootConfig :=
  Flk.addRecord "/h" "linux" [] "dev" "symlink" "/o"
    [("real", "/a"), ("fake", "/b")]

/-- Witness for C7 at a concrete one-record registry and store path. -/
theorem addRecord_save_load_roundtrip_witness :
    Flk.regEquivE c7Reg
      (Flk.savedThenLoaded none c7Reg "/tmp/flk-store.json" (fun _ => none)) :=
  addRecord_save_load_roundtrip none "/h" "linux" c7Reg "/tmp/flk-store.json"
    "/tmp/flk-store.json" (fun _ => none)
    (Flk.Built.step [] "dev" "symlink" "/o" [("real", "/a"), ("fake", "/b")]
      Flk.Built.nil (by decide))
    rfl

namespace Flk

/-! ### The Repair Session — `RunFix` (hardlink.go lines 348-478)

The loop is embedded over an abstract world `σ` with abstract entries
`E`: `check` runs a check pass and returns the currently-invalid
entries (`performCheck` filtered to `!r.Valid`), `repairOne` is
`repairResult` (returning the new world and the per-entry success
flag), `removeOne` is `RemoveMatchingEntry` followed by the batch save.
The console I/O and table rendering are external; the input lines are
the `inputs` list. -/

/-- Go `strings.TrimSpace` (ASCII whitespace). -/
def strTrim (s : String) : String :=
  ⟨((s.data.dropWhile Char.isWhitespace).reverse.dropWhile
      Char.isWhitespace).reverse⟩

/-- `strconv.Atoi` restricted to the unsigned forms; signed inputs are
rejected here and by the Go code's range check alike. -/
def parseNat (s : String) : Option Nat :=
  if s.data ≠ [] ∧ s.data.all Char.isDigit then
    some (s.data.foldl (fun n c => n * 10 + (c.toNat - 48)) 0)
  else none

/-- Go `strings.Fields` for single-line input. -/
def goFields (s : String) : List String :=
  (strSplitChar ' ' s).filter (fun x => x ≠ "")

/-- The index-parsing loop of `RunFix`: `strconv.Atoi` each token, warn
about and skip non-numeric or out-of-range (`idx < 1 || idx > n`)
tokens, keep `idx-1`. -/
def parseIndices (n : Nat) (parts : List String) : List Nat :=
  parts.filterMap (fun part =>
    match parseNat part with
    | some idx => if 1 ≤ idx ∧ idx ≤ n then some (idx - 1) else none
    | none => none)

/-- Apply one batch action to the entries selected from the listing. -/
def applyIndices {σ E : Type} (act : σ → E → σ) (w : σ) (inv : List E) :
    List Nat → σ
  | [] => w
  | i :: rest =>
    applyIndices act
      (match inv[i]? with
       | some e => act w e
       | none => w) inv rest

/-- How a session ended. -/
inductive FixStatus where
  | exited
  | allValid
  | inputsExhausted
deriving DecidableEq

/-- The state when a session ends: final world, the listing it last
computed, the number of batch actions performed, and the way it
ended. -/
structure RunOut (σ E : Type) where
  world : σ
  invalid : List E
  actions : Nat
  status : FixStatus

/-- The interactive loop of `RunFix` (hardlink.go lines 387-477): read
a line; `exit`/`e` leaves; a `d`-prefixed line parses deletion indices
and deletes the selected entries (then saves); `all`/`a` selects every
index, otherwise the tokens are parsed as repair indices; an empty
selection just loops; after every repair or deletion batch the check
pass is re-run (`checkAndDisplay`) and the session ends when it comes
back empty. -/
def runFixLoop {σ E : Type} (check : σ → List E)
    (repairOne : σ → E → σ × Bool) (removeOne : σ → E → σ) :
    List String → σ → List E → RunOut σ E
  | [], w, inv => ⟨w, inv, 0, .inputsExhausted⟩
  | i :: rest, w, inv =>
    let input := strTrim i
    if input = "exit" ∨ input = "e" then ⟨w, inv, 0, .exited⟩
    else if strStartsWith input "d" then
      let idxs := parseIndices inv.length (goFields (strDrop input 1))
      if idxs = [] then runFixLoop check repairOne removeOne rest w inv
      else
        let w2 := applyIndices removeOne w inv idxs
        let inv2 := check w2
        if inv2.isEmpty then ⟨w2, inv2, 1, .allValid⟩
        else
          let r := runFixLoop check repairOne removeOne rest w2 inv2
          ⟨r.world, r.invalid, r.actions + 1, r.status⟩
    else
      let idxs := if input = "all" ∨ input = "a" then List.range inv.length
        else parseIndices inv.length (goFields input)
      if idxs = [] then runFixLoop check repairOne removeOne rest w inv
      else
        let w2 := applyIndices (fun acc e => (repairOne acc e).1) w inv idxs
        let inv2 := check w2
        if inv2.isEmpty then ⟨w2, inv2, 1, .allValid⟩
        else
          let r := runFixLoop check repairOne removeOne rest w2 inv2
          ⟨r.world, r.invalid, r.actions + 1, r.status⟩

/-- Embedding of `RunFix`: run the initial check pass
(`checkAndDisplay`), end immediately when nothing is invalid, else
enter the loop. -/
def runFix {σ E : Type} (check : σ → List E)
    (repairOne : σ → E → σ × Bool) (removeOne : σ → E → σ)
    (inputs : List String) (w : σ) : RunOut σ E :=
  let invalid := check w
  if invalid.isEmpty then ⟨w, invalid, 0, .allValid⟩
  else runFixLoop check repairOne removeOne inputs w invalid

end Flk


namespace Flk

theorem parseIndices_lt (n : Nat) (parts : List String) :
    ∀ x ∈ parseIndices n parts, x < n := by
  intro x hx
  unfold parseIndices at hx
  obtain ⟨part, _, hsome⟩ := List.mem_filterMap.mp hx
  split at hsome
  · split at hsome
    · obtain rfl := Option.some.inj hsome
      omega
    · exact Option.noConfusion hsome
  · exact Option.noConfusion hsome

theorem length_lt_of_subset_missing {E : Type} [DecidableEq E]
    {l1 l2 : List E} (hsub : l1 ⊆ l2) (hnd1 : l1.Nodup) (hnd2 : l2.Nodup)
    {e : E} (hin : e ∈ l2) (hout : e ∉ l1) : l1.length < l2.length := by
  have h1 : l1.toFinset ⊆ l2.toFinset.erase e := by
    intro x hx
    rw [List.mem_toFinset] at hx
    exact Finset.mem_erase.mpr ⟨fun he => hout (he ▸ hx),
      List.mem_toFinset.mpr (hsub hx)⟩
  have h2 := Finset.card_le_card h1
  rw [List.toFinset_card_of_nodup hnd1] at h2
  have h3 : (l2.toFinset.erase e).card < l2.toFinset.card :=
    Finset.card_erase_lt_of_mem (List.mem_toFinset.mpr hin)
  rw [List.toFinset_card_of_nodup hnd2] at h3
  omega

theorem applyIndices_spec {σ E : Type} (check : σ → List E) (act : σ → E → σ)
    (Hs : ∀ w e, check (act w e) ⊆ check w ∧ e ∉ check (act w e)) :
    ∀ (idxs : List Nat) (w : σ) (inv : List E),
      check (applyIndices act w inv idxs) ⊆ check w ∧
      (∀ e, e ∉ check w → e ∉ check (applyIndices act w inv idxs)) ∧
      (∀ i ∈ idxs, ∀ e, inv[i]? = some e →
        e ∉ check (applyIndices act w inv idxs)) := by
  intro idxs
  induction idxs with
  | nil =>
    intro w inv
    exact ⟨fun x hx => hx, fun e he => he,
      fun i hi => absurd hi (List.not_mem_nil i)⟩
  | cons i rest ih =>
    intro w inv
    cases hg : inv[i]? with
    | none =>
      simp only [applyIndices, hg]
      obtain ⟨s1, s2, s3⟩ := ih w inv
      refine ⟨s1, s2, ?_⟩
      intro j hj e hje
      rcases List.mem_cons.mp hj with rfl | hj
      · exact Option.noConfusion (hje.symm.trans hg)
      · exact s3 j hj e hje
    | some e0 =>
      simp only [applyIndices, hg]
      obtain ⟨s1, s2, s3⟩ := ih (act w e0) inv
      have hstep := Hs w e0
      refine ⟨s1.trans hstep.1, fun e he => s2 e (fun hin => he (hstep.1 hin)), ?_⟩
      intro j hj e hje
      rcases List.mem_cons.mp hj with rfl | hj
      · obtain rfl : e0 = e := Option.some.inj (hg.symm.trans hje)
        exact s2 _ hstep.2
      · exact s3 j hj e hje

/-- What the session guarantees: the batch-action count is bounded, the
final listing is the fresh check of the final world (never a cached
listing), an empty listing means the session ended through the
nothing-left-to-fix break, and without `exit` inputs the session does
not end by exiting. -/
def loopSpecP {σ E : Type} (check : σ → List E) (len : Nat)
    (inputs : List String) (r : RunOut σ E) : Prop :=
  r.actions ≤ len ∧ r.invalid = check r.world ∧
  (r.invalid = [] → r.status = .allValid) ∧
  ((∀ i ∈ inputs, strTrim i ≠ "exit" ∧ strTrim i ≠ "e") →
    r.status ≠ .exited)

theorem loopSpecP_cons_input {σ E : Type} (check : σ → List E) (len : Nat)
    (i : String) (rest : List String) (r : RunOut σ E)
    (h : loopSpecP check len rest r) : loopSpecP check len (i :: rest) r :=
  ⟨h.1, h.2.1, h.2.2.1,
   fun hno => h.2.2.2 (fun j hj => hno j (List.mem_cons_of_mem _ hj))⟩

theorem loopBatch_spec {σ E : Type} [DecidableEq E] (check : σ → List E)
    (repairOne : σ → E → σ × Bool) (removeOne : σ → E → σ)
    (H3 : ∀ w, (check w).Nodup)
    (i : String) (rest : List String) (w : σ) (_hne : check w ≠ [])
    (act : σ → E → σ)
    (Hs : ∀ w e, check (act w e) ⊆ check w ∧ e ∉ check (act w e))
    (idxs : List Nat) (hidx : ∀ x ∈ idxs, x < (check w).length)
    (hnil : idxs ≠ [])
    (ih : ∀ w2, check w2 ≠ [] →
      loopSpecP check ((check w2).length) rest
        (runFixLoop check repairOne removeOne rest w2 (check w2))) :
    loopSpecP check ((check w).length) (i :: rest)
      (if (check (applyIndices act w (check w) idxs)).isEmpty then
        ⟨applyIndices act w (check w) idxs,
         check (applyIndices act w (check w) idxs), 1, .allValid⟩
      else
        let r := runFixLoop check repairOne removeOne rest
          (applyIndices act w (check w) idxs)
          (check (applyIndices act w (check w) idxs))
        ⟨r.world, r.invalid, r.actions + 1, r.status⟩) := by
  obtain ⟨i0, idxs2, rfl⟩ : ∃ i0 idxs2, idxs = i0 :: idxs2 := by
    cases idxs with
    | nil => exact absurd rfl hnil
    | cons a b => exact ⟨a, b, rfl⟩
  have hi0 : i0 < (check w).length := hidx i0 (List.mem_cons_self _ _)
  obtain ⟨hsub, _, hsel⟩ :=
    applyIndices_spec check act Hs (i0 :: idxs2) w (check w)
  have he0 : (check w)[i0] ∉
      check (applyIndices act w (check w) (i0 :: idxs2)) :=
    hsel i0 (List.mem_cons_self _ _) _ (List.getElem?_eq_getElem hi0)
  have hlt : (check (applyIndices act w (check w) (i0 :: idxs2))).length
      < (check w).length :=
    length_lt_of_subset_missing hsub (H3 _) (H3 w)
      (List.getElem_mem hi0) he0
  by_cases hempty :
      (check (applyIndices act w (check w) (i0 :: idxs2))).isEmpty = true
  · rw [if_pos hempty]
    refine ⟨?_, rfl, fun _ => rfl, fun _ hc => by cases hc⟩
    show 1 ≤ (check w).length
    omega
  · rw [if_neg hempty]
    have hne2 : check (applyIndices act w (check w) (i0 :: idxs2)) ≠ [] := by
      simpa [List.isEmpty_iff] using hempty
    obtain ⟨a1, a2, a3, a4⟩ := ih _ hne2
    refine ⟨?_, a2, a3, fun hno => a4 (fun j hj =>
      hno j (List.mem_cons_of_mem _ hj))⟩
    show (runFixLoop check repairOne removeOne rest
      (applyIndices act w (check w) (i0 :: idxs2))
      (check (applyIndices act w (check w) (i0 :: idxs2)))).actions + 1
      ≤ (check w).length
    omega

theorem runFixLoop_spec {σ E : Type} [DecidableEq E] (check : σ → List E)
    (repairOne : σ → E → σ × Bool) (removeOne : σ → E → σ)
    (H1 : ∀ w e, check ((repairOne w e).1) ⊆ check w ∧
      e ∉ check ((repairOne w e).1))
    (H2 : ∀ w e, check (removeOne w e) ⊆ check w ∧ e ∉ check (removeOne w e))
    (H3 : ∀ w, (check w).Nodup) :
    ∀ (inputs : List String) (w : σ), check w ≠ [] →
      loopSpecP check ((check w).length) inputs
        (runFixLoop check repairOne removeOne inputs w (check w)) := by
  intro inputs
  induction inputs with
  | nil =>
    intro w hne
    exact ⟨Nat.zero_le _, rfl, fun h => absurd h hne, fun _ hc => by cases hc⟩
  | cons i rest ih =>
    intro w hne
    unfold runFixLoop
    by_cases hexit : strTrim i = "exit" ∨ strTrim i = "e"
    · rw [if_pos hexit]
      refine ⟨Nat.zero_le _, rfl, fun h => absurd h hne, ?_⟩
      intro hno
      exfalso
      rcases hexit with he | he
      · exact (hno i (List.mem_cons_self _ _)).1 he
      · exact (hno i (List.mem_cons_self _ _)).2 he
    · rw [if_neg hexit]
      by_cases hd : strStartsWith (strTrim i) "d" = true
      · rw [if_pos hd]
        by_cases hidxs : parseIndices (check w).length
            (goFields (strDrop (strTrim i) 1)) = []
        · rw [if_pos hidxs]
          exact loopSpecP_cons_input _ _ _ _ _ (ih w hne)
        · rw [if_neg hidxs]
          exact loopBatch_spec check repairOne removeOne H3 i rest w hne
            removeOne H2 _ (parseIndices_lt _ _) hidxs ih
      · rw [if_neg hd]
        by_cases hidxs : (if strTrim i = "all" ∨ strTrim i = "a" then
            List.range (check w).length
          else parseIndices (check w).length (goFields (strTrim i))) = []
        · rw [if_pos hidxs]
          exact loopSpecP_cons_input _ _ _ _ _ (ih w hne)
        · rw [if_neg hidxs]
          refine loopBatch_spec check repairOne removeOne H3 i rest w hne
            (fun acc e => (repairOne acc e).1) H1 _ ?_ hidxs ih
          by_cases hall : strTrim i = "all" ∨ strTrim i = "a"
          · rw [if_pos hall]
            intro x hx
            simpa using List.mem_range.mp hx
          · rw [if_neg hall]
            exact parseIndices_lt _ _

end Flk


namespace Flk

/-- C9: In the repair session (`RunFix`), the listing of invalid entries
is re-computed by running the check pass after every repair or deletion
batch, never cached: the final listing always equals the check of the
final world. Moreover, provided each successful repair or deletion of an
entry removes that entry from the invalid set and introduces no new
invalid entries, and check listings are duplicate-free, the session
performs at most as many batch iterations as there are distinct invalid
entries initially; when it drains the listing it ends in the
all-valid state, and a finite input sequence containing no `exit`
never ends the session through the exit branch. -/
theorem repairSession_recheck_and_bounded {σ E : Type} [DecidableEq E]
    (check : σ → List E) (repairOne : σ → E → σ × Bool)
    (removeOne : σ → E → σ)
    (H1 : ∀ w e, check ((repairOne w e).1) ⊆ check w ∧
      e ∉ check ((repairOne w e).1))
    (H2 : ∀ w e, check (removeOne w e) ⊆ check w ∧
      e ∉ check (removeOne w e))
    (H3 : ∀ w, (check w).Nodup)
    (inputs : List String) (w : σ) :
    (runFix check repairOne removeOne inputs w).invalid
      = check (runFix check repairOne removeOne inputs w).world ∧
    (runFix check repairOne removeOne inputs w).actions
      ≤ (check w).length ∧
    ((runFix check repairOne removeOne inputs w).invalid = [] →
      (runFix check repairOne removeOne inputs w).status = .allValid) ∧
    ((∀ i ∈ inputs, strTrim i ≠ "exit" ∧ strTrim i ≠ "e") →
      (runFix check repairOne removeOne inputs w).status ≠ .exited) := by
  unfold runFix
  by_cases hempty : (check w).isEmpty = true
  · rw [if_pos hempty]
    exact ⟨rfl, Nat.zero_le _, fun _ => rfl, fun _ hc => by cases hc⟩
  · rw [if_neg hempty]
    have hne : check w ≠ [] := by simpa [List.isEmpty_iff] using hempty
    obtain ⟨a1, a2, a3, a4⟩ :=
      runFixLoop_spec check repairOne removeOne H1 H2 H3 inputs w hne
    exact ⟨a2, a1, a3, a4⟩

theorem repairSession_recheck_and_bounded_witness :
    (runFix (fun w : List Nat => w.dedup)
      (fun w e => (w.filter (fun x => x ≠ e), true))
      (fun w e => w.filter (fun x => x ≠ e))
      ["1 2"] [5, 5, 7]).actions ≤ 2 ∧
    (runFix (fun w : List Nat => w.dedup)
      (fun w e => (w.filter (fun x => x ≠ e), true))
      (fun w e => w.filter (fun x => x ≠ e))
      ["1 2"] [5, 5, 7]).invalid
    = ((runFix (fun w : List Nat => w.dedup)
      (fun w e => (w.filter (fun x => x ≠ e), true))
      (fun w e => w.filter (fun x => x ≠ e))
      ["1 2"] [5, 5, 7]).world).dedup ∧
    (runFix (fun w : List Nat => w.dedup)
      (fun w e => (w.filter (fun x => x ≠ e), true))
      (fun w e => w.filter (fun x => x ≠ e))
      ["1 2"] [5, 5, 7]).status = .allValid := by
  have hsub : ∀ (w : List Nat) (e : Nat),
      (w.filter (fun x => x ≠ e)).dedup ⊆ w.dedup ∧
      e ∉ (w.filter (fun x => x ≠ e)).dedup := by
    intro w e
    constructor
    · intro x hx
      exact List.mem_dedup.mpr (List.mem_of_mem_filter (List.mem_dedup.mp hx))
    · intro hx
      have := List.of_mem_filter (List.mem_dedup.mp hx)
      simp at this
  have h := repairSession_recheck_and_bounded
    (fun w : List Nat => w.dedup)
    (fun w e => (w.filter (fun x => x ≠ e), true))
    (fun w e => w.filter (fun x => x ≠ e))
    (fun w e => hsub w e) (fun w e => hsub w e)
    (fun w => List.nodup_dedup w)
    ["1 2"] [5, 5, 7]
  refine ⟨le_trans h.2.1 (by decide), h.1, ?_⟩
  apply h.2.2.1
  rw [h.1]
  rfl

end Flk
